import Mathlib

/-!
Verification development for the WP-Block-Builder-Agent repository.

Shallow embedding of the program's pure logic:
* Python `str` values are embedded as `List Char` (`PyStr`); Python's
  ASCII-range lowercasing and whitespace conventions are modelled on that
  representation.
* `src/main.py`: `sanitize_block_name`, `classify_user_intent`,
  `is_block_complete`, the `generate_acf_json` tool, the
  `HumanInTheLoopMiddleware` interrupt table, and the new-block confirmation
  branch of `main`.
* `src/agents/acf_json_agent.py`: `ACFJsonAgent.create_field_group` (its
  post-backend parsing stage — the generative backend itself is an external
  collaborator and enters the model as a parameter holding what the backend
  saved) and `ACFJsonAgent.format_json`.
* JSON values are embedded as the inductive `JValue` (objects as ordered
  association lists with string keys, integer numbers; floats are outside the
  embedding's scope).  `json.dumps(..., indent=4)` is embedded as `serVal`
  and `json.loads` as `jsonLoads` (integer-fragment grammar, strings with the
  standard escapes including `\uXXXX` and surrogate pairs).
-/

/-- Python `str` embedded as a list of unicode scalar values. -/
abbrev PyStr := List Char

/-- The whitespace characters recognised by Python's `str.split()` /
`str.strip()` (ASCII range; the embedding restricts to these). -/
def pyIsSpace (c : Char) : Bool :=
  c == ' ' || c == '\t' || c == '\n' || c == '\r' || c == '\x0b' || c == '\x0c'

/-- Python `str.lower()` (ASCII range, matching `Char.toLower`). -/
def pyLower (s : PyStr) : PyStr := s.map Char.toLower

/-- Python `str.strip()`: drop leading and trailing whitespace. -/
def pyStrip (s : PyStr) : PyStr :=
  ((s.dropWhile pyIsSpace).reverse.dropWhile pyIsSpace).reverse

/-- Helper for `pySplitWs`: accumulate the current word (reversed) while
scanning. -/
def pySplitWsAux : PyStr → PyStr → List PyStr
  | [], acc => if acc.isEmpty then [] else [acc.reverse]
  | c :: rest, acc =>
    if pyIsSpace c then
      if acc.isEmpty then pySplitWsAux rest [] else acc.reverse :: pySplitWsAux rest []
    else
      pySplitWsAux rest (c :: acc)

/-- Python `str.split()` with no argument: split on whitespace runs,
discarding empty pieces. -/
def pySplitWs (s : PyStr) : List PyStr := pySplitWsAux s []

/-- Characters kept by `re.sub(r"[^a-z0-9-]", "", slug)` in
`sanitize_block_name`. -/
def isSlugChar (c : Char) : Bool :=
  ('a' ≤ c && c ≤ 'z') || ('0' ≤ c && c ≤ '9') || c == '-'

/-- `re.sub(r"-+", "-", slug)`: collapse each run of hyphens to a single
hyphen. -/
def collapseHyphens : PyStr → PyStr
  | [] => []
  | [c] => [c]
  | c1 :: c2 :: rest =>
    if c1 = '-' && c2 = '-' then collapseHyphens (c2 :: rest)
    else c1 :: collapseHyphens (c2 :: rest)

/-- Python `str.strip("-")`: drop leading and trailing hyphens. -/
def stripHyphens (s : PyStr) : PyStr :=
  ((s.dropWhile (· == '-')).reverse.dropWhile (· == '-')).reverse

/-- `sanitize_block_name` from `src/main.py` (lines 41-47): lowercase, take
the first four whitespace-separated words, join with hyphens, delete
characters outside `[a-z0-9-]`, collapse hyphen runs, strip edge hyphens,
truncate to 50 characters. -/
def sanitize_block_name (description : PyStr) : PyStr :=
  let words := (pySplitWs (pyLower description)).take 4
  let slug := List.intercalate ['-'] words
  let slug := slug.filter isSlugChar
  let slug := collapseHyphens slug
  (stripHyphens slug).take 50

/-- Modelled from the spec's words in §6 ("lowercase, first four
whitespace-separated words, joined with hyphens, characters outside
`[a-z0-9-]` stripped, repeated hyphens collapsed, leading/trailing hyphens
trimmed, truncated to 50 characters"), for comparison with the source's
`sanitize_block_name`. -/
def sanitizeBlockNameSpec (s : PyStr) : PyStr :=
  let lowered := pyLower s
  let firstFour := (pySplitWs lowered).take 4
  let joined := List.intercalate ['-'] firstFour
  let kept := joined.filter isSlugChar
  let collapsed := collapseHyphens kept
  let trimmed := stripHyphens collapsed
  trimmed.take 50

/-- The exact-match termination phrases of `classify_user_intent`. -/
def exitWords : List PyStr := ["exit".data, "quit".data, "q".data]

/-- The substring phrases that `classify_user_intent` treats as a request
for a new unit of work. -/
def newBlockPhrases : List PyStr :=
  ["new block".data, "another block".data, "start over".data,
   "different block".data, "next block".data]

/-- Python's `needle in haystack` substring test on strings. -/
def pyStrIn (needle : PyStr) : PyStr → Bool
  | [] => needle.isEmpty
  | c :: t => needle.isPrefixOf (c :: t) || pyStrIn needle t

/-- `classify_user_intent` from `src/main.py` (lines 88-100): lowercase and
strip the input, check exact membership in the exit words, then substring
membership of the new-block phrases, else continue. -/
def classify_user_intent (user_input : PyStr) : PyStr :=
  let input_lower := pyStrip (pyLower user_input)
  if input_lower ∈ exitWords then "exit".data
  else if newBlockPhrases.any (fun p => pyStrIn p input_lower) then "new_block".data
  else "continue".data

/-! JSON values, as produced by `json.loads` within the embedding's scope:
objects are ordered association lists with string keys, numbers are
integers (floats are outside the embedding's scope). -/

mutual

inductive JValue : Type where
  | null : JValue
  | bool : Bool → JValue
  | num : Int → JValue
  | str : PyStr → JValue
  | arr : JArr → JValue
  | obj : JObj → JValue

inductive JArr : Type where
  | nil : JArr
  | cons : JValue → JArr → JArr

inductive JObj : Type where
  | nil : JObj
  | cons : PyStr → JValue → JObj → JObj

end

/-- Is the object (Python dict) empty?  Python `bool(d)` is false exactly on
the empty dict. -/
def JObj.isEmpty : JObj → Bool
  | .nil => true
  | .cons _ _ _ => false

/-- Python `key in d` on a dict: key membership. -/
def JObj.hasKey : JObj → PyStr → Bool
  | .nil, _ => false
  | .cons k _ t, key => k == key || t.hasKey key

/-- Python `d[key]` / `d.get(key)` on a dict: first binding wins, like a
Python dict in which keys are unique. -/
def JObj.lookup : JObj → PyStr → Option JValue
  | .nil, _ => none
  | .cons k v t, key => if k == key then some v else t.lookup key

/-- Python `x == needle` membership scan of a list for a string needle
(only a `str` element can equal a `str` in Python). -/
def JArr.containsStr : JArr → PyStr → Bool
  | .nil, _ => false
  | .cons (.str s) t, key => s == key || t.containsStr key
  | .cons _ t, key => t.containsStr key

/-- Python `needle in v` for a JSON value: key membership on dicts, element
membership on lists, substring on strings; `TypeError` (`none`) on
`null` / booleans / numbers. -/
def pyInJ (needle : PyStr) : JValue → Option Bool
  | .null => none
  | .bool _ => none
  | .num _ => none
  | .str s => some (pyStrIn needle s)
  | .arr a => some (a.containsStr needle)
  | .obj o => some (o.hasKey needle)

/-! Serialization: `json.dumps(v, indent=4)` with its default
`ensure_ascii=True` escaping. -/

/-- Hexadecimal digit characters, lowercase, as emitted by Python's
`\uXXXX` escapes. -/
def hexDigitChar (k : Nat) : Char :=
  if k = 0 then '0' else if k = 1 then '1' else if k = 2 then '2'
  else if k = 3 then '3' else if k = 4 then '4' else if k = 5 then '5'
  else if k = 6 then '6' else if k = 7 then '7' else if k = 8 then '8'
  else if k = 9 then '9' else if k = 10 then 'a' else if k = 11 then 'b'
  else if k = 12 then 'c' else if k = 13 then 'd' else if k = 14 then 'e'
  else 'f'

/-- Four hex digits of `n < 0x10000`, most significant first. -/
def hex4 (n : Nat) : PyStr :=
  [hexDigitChar (n / 4096 % 16), hexDigitChar (n / 256 % 16),
   hexDigitChar (n / 16 % 16), hexDigitChar (n % 16)]

/-- One character of a JSON string, escaped as Python's
`json.encoder.py_encode_basestring_ascii` does: short escapes for
`\" \\ \n \r \t \b \f`, printable ASCII verbatim, `\uXXXX` otherwise,
with a surrogate pair for characters above `0xFFFF`. -/
def escChar (c : Char) : PyStr :=
  if c = '\"' then ['\\', '\"']
  else if c = '\\' then ['\\', '\\']
  else if c = '\n' then ['\\', 'n']
  else if c = '\r' then ['\\', 'r']
  else if c = '\t' then ['\\', 't']
  else if c = '\x08' then ['\\', 'b']
  else if c = '\x0c' then ['\\', 'f']
  else if 0x20 ≤ c.toNat ∧ c.toNat ≤ 0x7e then [c]
  else if c.toNat < 0x10000 then '\\' :: 'u' :: hex4 c.toNat
  else
    ('\\' :: 'u' :: hex4 (0xd800 + (c.toNat - 0x10000) / 0x400)) ++
    ('\\' :: 'u' :: hex4 (0xdc00 + (c.toNat - 0x10000) % 0x400))

/-- A serialized JSON string: quote, escaped characters, quote. -/
def serStr (s : PyStr) : PyStr :=
  '\"' :: ((s.map escChar).flatten ++ ['\"'])

/-- Decimal digits of a natural number (fuel-based so that it reduces in the
kernel); `natDigitsAux (n+1) n` is always fully evaluated. -/
def natDigitsAux : Nat → Nat → PyStr
  | 0, _ => []
  | fuel + 1, n =>
    if n < 10 then [hexDigitChar n]
    else natDigitsAux fuel (n / 10) ++ [hexDigitChar (n % 10)]

/-- Decimal rendering of a natural number, as Python's `repr` of an `int`. -/
def serNat (n : Nat) : PyStr := natDigitsAux (n + 1) n

/-- Decimal rendering of an integer. -/
def serInt (n : Int) : PyStr :=
  if n < 0 then '-' :: serNat n.natAbs else serNat n.natAbs

/-- The newline-plus-indentation that `json.dumps(..., indent=4)` inserts
before an element at nesting depth `ind`. -/
def nlIndent (ind : Nat) : PyStr := '\n' :: List.replicate (4 * ind) ' '

mutual

/-- `json.dumps(v, indent=4)` for a value printed at nesting depth `ind`. -/
def serVal (ind : Nat) : JValue → PyStr
  | .null => "null".data
  | .bool true => "true".data
  | .bool false => "false".data
  | .num n => serInt n
  | .str s => serStr s
  | .arr .nil => "[]".data
  | .arr (.cons v t) =>
    '[' :: (nlIndent (ind + 1) ++ (serVal (ind + 1) v ++ serArrTail ind t))
  | .obj .nil => "\x7b\x7d".data
  | .obj (.cons k v t) =>
    '\x7b' :: (nlIndent (ind + 1) ++
      (serStr k ++ (':' :: ' ' :: (serVal (ind + 1) v ++ serObjTail ind t))))

/-- The serialized continuation of a non-empty array: `",\n<indent>item"`
repeated, then `"\n<indent>]"`. -/
def serArrTail (ind : Nat) : JArr → PyStr
  | .nil => nlIndent ind ++ "]".data
  | .cons v t =>
    ',' :: (nlIndent (ind + 1) ++ (serVal (ind + 1) v ++ serArrTail ind t))

/-- The serialized continuation of a non-empty object. -/
def serObjTail (ind : Nat) : JObj → PyStr
  | .nil => nlIndent ind ++ "\x7d".data
  | .cons k v t =>
    ',' :: (nlIndent (ind + 1) ++
      (serStr k ++ (':' :: ' ' :: (serVal (ind + 1) v ++ serObjTail ind t))))

end

/-- `ACFJsonAgent.format_json` from `src/agents/acf_json_agent.py`
(lines 129-131): `json.dumps(field_group, indent=4)`. -/
def format_json (field_group : JObj) : PyStr := serVal 0 (.obj field_group)

/-! Parsing: the embedding of `json.loads` (restricted to the integer-number
fragment of JSON; a `\uXXXX` escape denoting a lone surrogate — which Python
would keep as a lone surrogate code point — is unrepresentable in a
`List Char` of scalar values and makes the embedded parser fail). -/

/-- JSON insignificant whitespace, as skipped by `json.loads`. -/
def isJsonWs (c : Char) : Bool :=
  c == ' ' || c == '\t' || c == '\n' || c == '\r'

/-- Skip insignificant whitespace. -/
def skipWs (s : PyStr) : PyStr := s.dropWhile isJsonWs

/-- ASCII decimal digit test. -/
def isDigitC (c : Char) : Bool := '0' ≤ c && c ≤ '9'

/-- Value of one hex digit (either case), `none` if not a hex digit. -/
def hexVal (c : Char) : Option Nat :=
  if '0' ≤ c ∧ c ≤ '9' then some (c.toNat - 48)
  else if 'a' ≤ c ∧ c ≤ 'f' then some (c.toNat - 87)
  else if 'A' ≤ c ∧ c ≤ 'F' then some (c.toNat - 55)
  else none

/-- Value of four hex digits, most significant first. -/
def hex4Val (a b c d : Char) : Option Nat :=
  match hexVal a, hexVal b, hexVal c, hexVal d with
  | some ka, some kb, some kc, some kd =>
    some (((ka * 16 + kb) * 16 + kc) * 16 + kd)
  | _, _, _, _ => none

/-- Decimal value of a digit string. -/
def natVal (ds : PyStr) : Nat := ds.foldl (fun a c => a * 10 + (c.toNat - 48)) 0

/-- Consume an expected literal continuation, returning the remainder. -/
def chopLit : PyStr → PyStr → Option PyStr
  | [], s => some s
  | _ :: _, [] => none
  | p :: ps, c :: cs => if c = p then chopLit ps cs else none

/-- Read four hex digits, returning their value and the remainder. -/
def readHex4 : PyStr → Option (Nat × PyStr)
  | a :: b :: c :: d :: r => (hex4Val a b c d).map (fun n => (n, r))
  | _ => none

/-- Decode the four hex digits (and, for a high surrogate, the following
`\uXXXX` low surrogate) after a `\u` escape, as Python's `py_scanstring`
does.  A lone surrogate — which Python would keep as a lone surrogate code
point — is unrepresentable in a scalar-value string and yields `none`. -/
def decodeUEscape (s : PyStr) : Option (Char × PyStr) :=
  (readHex4 s).bind (fun p =>
    if 0xd800 ≤ p.1 ∧ p.1 < 0xdc00 then
      if p.2.head? = some '\\' ∧ p.2.tail.head? = some 'u' then
        (readHex4 p.2.tail.tail).bind (fun q =>
          if 0xdc00 ≤ q.1 ∧ q.1 < 0xe000 then
            some (Char.ofNat (0x10000 + (p.1 - 0xd800) * 0x400 + (q.1 - 0xdc00)), q.2)
          else none)
      else none
    else if 0xdc00 ≤ p.1 ∧ p.1 < 0xe000 then none
    else some (Char.ofNat p.1, p.2))

/-- Parse the body of a JSON string after the opening quote, returning the
decoded characters and the remainder after the closing quote.  Mirrors
Python's `py_scanstring` in strict mode: raw control characters are
rejected and the standard escapes are decoded.  The fuel only bounds the
recursion; one unit is spent per decoded character, so any fuel above the
input length is enough. -/
def parseStrBodyAux : Nat → PyStr → Option (PyStr × PyStr)
  | 0, _ => none
  | fuel + 1, s =>
    match s with
    | [] => none
    | c :: rest =>
      if c = '\"' then some ([], rest)
      else if c = '\\' then
        match rest with
        | [] => none
        | e :: r2 =>
          if e = '\"' then (parseStrBodyAux fuel r2).map (fun p => ('\"' :: p.1, p.2))
          else if e = '\\' then (parseStrBodyAux fuel r2).map (fun p => ('\\' :: p.1, p.2))
          else if e = '/' then (parseStrBodyAux fuel r2).map (fun p => ('/' :: p.1, p.2))
          else if e = 'n' then (parseStrBodyAux fuel r2).map (fun p => ('\n' :: p.1, p.2))
          else if e = 'r' then (parseStrBodyAux fuel r2).map (fun p => ('\r' :: p.1, p.2))
          else if e = 't' then (parseStrBodyAux fuel r2).map (fun p => ('\t' :: p.1, p.2))
          else if e = 'b' then (parseStrBodyAux fuel r2).map (fun p => ('\x08' :: p.1, p.2))
          else if e = 'f' then (parseStrBodyAux fuel r2).map (fun p => ('\x0c' :: p.1, p.2))
          else if e = 'u' then
            (decodeUEscape r2).bind (fun q =>
              (parseStrBodyAux fuel q.2).map (fun p => (q.1 :: p.1, p.2)))
          else none
      else if c.toNat < 0x20 then none
      else (parseStrBodyAux fuel rest).map (fun p => (c :: p.1, p.2))

/-- Parse a JSON string body; the fuel is self-supplied from the input
length. -/
def parseStrBody (s : PyStr) : Option (PyStr × PyStr) :=
  parseStrBodyAux (s.length + 1) s

/-- Parse a JSON natural number: `0`, or a nonzero digit followed by digits
(the `0|[1-9]\d*` integer grammar of `json.loads`). -/
def parseNat : PyStr → Option (Nat × PyStr)
  | [] => none
  | c :: r =>
    if c = '0' then some (0, r)
    else if isDigitC c then
      some (natVal (c :: r.takeWhile isDigitC), r.dropWhile isDigitC)
    else none

/-- Parse a JSON integer with optional leading minus sign. -/
def parseNum (s : PyStr) : Option (JValue × PyStr) :=
  match s with
  | [] => none
  | c :: r =>
    if c = '-' then (parseNat r).map (fun p => (.num (-(p.1 : Int)), p.2))
    else (parseNat (c :: r)).map (fun p => (.num (p.1 : Int), p.2))

mutual

/-- Parse one JSON value, fuel-bounded (the fuel only caps the recursion
into container elements; `jsonLoads` supplies enough for any input). -/
def parseVal : Nat → PyStr → Option (JValue × PyStr)
  | 0, _ => none
  | fuel + 1, s =>
    match skipWs s with
    | [] => none
    | c :: r =>
      if c = 'n' then
        (chopLit "ull".data r).map (fun r2 => (.null, r2))
      else if c = 't' then
        (chopLit "rue".data r).map (fun r2 => (.bool true, r2))
      else if c = 'f' then
        (chopLit "alse".data r).map (fun r2 => (.bool false, r2))
      else if c = '\"' then
        (parseStrBody r).map (fun p => (.str p.1, p.2))
      else if c = '[' then
        let r1 := skipWs r
        if r1.head? = some ']' then some (.arr .nil, r1.tail)
        else
          (parseVal fuel r1).bind (fun vr =>
            (parseArrTail fuel vr.2).map (fun tr => (.arr (.cons vr.1 tr.1), tr.2)))
      else if c = '\x7b' then
        let r1 := skipWs r
        if r1.head? = some '\x7d' then some (.obj .nil, r1.tail)
        else if r1.head? = some '\"' then
          (parseStrBody r1.tail).bind (fun kr =>
            let r2s := skipWs kr.2
            if r2s.head? = some ':' then
              (parseVal fuel r2s.tail).bind (fun vr =>
                (parseObjTail fuel vr.2).map (fun tr => (.obj (.cons kr.1 vr.1 tr.1), tr.2)))
            else none)
        else none
      else if c = '-' ∨ isDigitC c then parseNum (c :: r)
      else none

/-- Parse the continuation of an array after one element: either a closing
bracket or a comma-separated further element. -/
def parseArrTail : Nat → PyStr → Option (JArr × PyStr)
  | 0, _ => none
  | fuel + 1, s =>
    let r0 := skipWs s
    if r0.head? = some ']' then some (.nil, r0.tail)
    else if r0.head? = some ',' then
      (parseVal fuel r0.tail).bind (fun vr =>
        (parseArrTail fuel vr.2).map (fun tr => (.cons vr.1 tr.1, tr.2)))
    else none

/-- Parse the continuation of an object after one member. -/
def parseObjTail : Nat → PyStr → Option (JObj × PyStr)
  | 0, _ => none
  | fuel + 1, s =>
    let r0 := skipWs s
    if r0.head? = some '\x7d' then some (.nil, r0.tail)
    else if r0.head? = some ',' then
      let r1 := skipWs r0.tail
      if r1.head? = some '\"' then
        (parseStrBody r1.tail).bind (fun kr =>
          let r2s := skipWs kr.2
          if r2s.head? = some ':' then
            (parseVal fuel r2s.tail).bind (fun vr =>
              (parseObjTail fuel vr.2).map (fun tr => (.cons kr.1 vr.1 tr.1, tr.2)))
          else none)
      else none
    else none

end

/-- The embedding of `json.loads`: parse one value, then require only
whitespace to follow. -/
def jsonLoads (s : PyStr) : Option JValue :=
  match parseVal (s.length + 1) s with
  | some (v, rest) => if (skipWs rest).isEmpty then some v else none
  | none => none

/-! The `ACFJsonAgent.create_field_group` post-backend stage and the
`generate_acf_json` tool of `src/main.py`.  The generative backend is an
external collaborator; it enters the model as the pair of what the backend
saved through the `save_json` tool (`saved : Option PyStr`, `none` when the
tool was never called) and the final response message (`lastMsg`), exactly
the two data the Python code branches on. -/

/-- The markdown-fence clean-up of `ACFJsonAgent.create_field_group`
(`src/agents/acf_json_agent.py` lines 104-112): strip, drop a leading
"```json" (7 characters), drop a leading "```" (3 characters), drop a
trailing "```", strip again. -/
def cleanSavedOutput (s : PyStr) : PyStr :=
  let r0 := pyStrip s
  let r1 := if ("```json".data).isPrefixOf r0 then r0.drop 7 else r0
  let r2 := if ("```".data).isPrefixOf r1 then r1.drop 3 else r1
  let r3 := if ("```".data).isSuffixOf r2 then r2.take (r2.length - 3) else r2
  pyStrip r3

/-- The error-description string of the `JSONDecodeError` branch
(`"Failed to parse JSON: {e}"`; the exception detail `{e}` is elided in the
embedding). -/
def parseFailMsg : PyStr := "Failed to parse JSON".data

/-- The fallback record returned when the agent never called `save_json`
(`src/agents/acf_json_agent.py` lines 122-127). -/
def noJsonSavedRecord (lastMsg : PyStr) : JValue :=
  .obj (.cons "error".data (.str "No JSON was saved by the agent".data)
    (.cons "raw_output".data (.str lastMsg) .nil))

/-- `ACFJsonAgent.create_field_group` after the backend ran
(`src/agents/acf_json_agent.py` lines 102-127): if JSON was saved (Python
truthiness: non-`None` and non-empty), clean markdown fences and parse it,
returning an error/raw-output record on a parse failure; otherwise return
the no-JSON-saved fallback record. -/
def create_field_group (saved : Option PyStr) (lastMsg : PyStr) : JValue :=
  match saved with
  | some s =>
    if s.isEmpty then noJsonSavedRecord lastMsg
    else
      let result := cleanSavedOutput s
      match jsonLoads result with
      | some v => v
      | none =>
        .obj (.cons "error".data (.str parseFailMsg)
          (.cons "raw_output".data (.str result) .nil))
  | none => noJsonSavedRecord lastMsg

/-- The workflow state of `src/main.py`'s `BlockState` (a LangGraph typed
dict; a field may be absent, hence `Option`).  The message log is not part
of the embedded state. -/
structure BlockState where
  block_description : Option PyStr := none
  block_name : Option PyStr := none
  proposed_fields : Option (List JValue) := none
  approved_fields : Option (List JValue) := none
  php_template : Option PyStr := none
  acf_json : Option JObj := none
  output_dir : Option PyStr := none

/-- Python truthiness of `state.get(field)` for a string field: present and
non-empty. -/
def pyTruthyStr : Option PyStr → Bool
  | none => false
  | some s => !s.isEmpty

/-- Python truthiness of `state.get(field)` for a dict field: present and
non-empty. -/
def pyTruthyObj : Option JObj → Bool
  | none => false
  | some o => !o.isEmpty

/-- `is_block_complete` from `src/main.py` (lines 81-85). -/
def is_block_complete (state : BlockState) : Bool :=
  let has_php := pyTruthyStr state.php_template
  let has_acf := pyTruthyObj state.acf_json &&
    !((state.acf_json.getD .nil).hasKey "error".data)
  has_php && has_acf

/-- Python `str(x)` for scalar JSON values as used in the f-string
`f"{group_key}.json"`.  Containers are rendered as their JSON serialization
here; Python's `repr` would quote strings differently, but no claim depends
on the container case (a non-string `"key"` value in generated output). -/
def pyStrOfJ : JValue → PyStr
  | .null => "None".data
  | .bool true => "True".data
  | .bool false => "False".data
  | .num n => serInt n
  | .str s => s
  | .arr a => serVal 0 (.arr a)
  | .obj o => serVal 0 (.obj o)

/-- What a tool invocation hands back to the agent loop: a plain string, or
a `Command(update={"acf_json": ...})` committing the parsed field group to
the workflow state. -/
inductive StepReturn : Type where
  | msg : PyStr → StepReturn
  | command : JObj → StepReturn

/-- The observable outcome of one `generate_acf_json` invocation: whether
the backend sub-agent was invoked, which files were written
(`(filename, content)` inside the session's output directory), and what was
returned to the agent loop. -/
structure StepResult : Type where
  backendCalled : Bool
  filesWritten : List (PyStr × PyStr)
  ret : StepReturn

/-- The caught-exception return of `generate_acf_json`
(`f"Error generating ACF JSON: {e}"`; the exception detail is elided). -/
def acfExceptionMsg : PyStr := "Error generating ACF JSON".data

/-- The `generate_acf_json` tool from `src/main.py` (lines 258-307).  Reads
`php_template`, `block_name`, `output_dir` from the state; fails before any
backend call when the template is missing or empty; on an error record from
`create_field_group` saves the raw output to `"{block_name}-acf-raw.txt"`
and returns a partial-success message without updating state; on success
saves `format_json` output to `"{group_key}.json"` and commits `acf_json`.
Exceptions inside the `try` (including a `TypeError` from `in` on a
non-container or writing a non-string) are caught and returned as an error
message.  The prompt-building code that only feeds the backend is elided
(the backend's behaviour is the `saved`/`lastMsg` parameter). -/
def generate_acf_json (saved : Option PyStr) (lastMsg : PyStr)
    (state : BlockState) : StepResult :=
  let block_name := state.block_name.getD []
  let output_dir := state.output_dir.getD "output".data
  let php_template := state.php_template.getD []
  if php_template.isEmpty then
    ⟨false, [], .msg "Error: PHP template must be generated first.".data⟩
  else
    let acf_json := create_field_group saved lastMsg
    match pyInJ "error".data acf_json with
    | none => ⟨true, [], .msg acfExceptionMsg⟩
    | some true =>
      match acf_json with
      | .obj o =>
        match o.lookup "raw_output".data with
        | some (.str raw) =>
          let fname := block_name ++ "-acf-raw.txt".data
          ⟨true, [(fname, raw)],
            .msg ("Partial success. Raw output saved to: ".data ++
              (output_dir ++ '/' :: fname))⟩
        | none =>
          let fname := block_name ++ "-acf-raw.txt".data
          ⟨true, [(fname, [])],
            .msg ("Partial success. Raw output saved to: ".data ++
              (output_dir ++ '/' :: fname))⟩
        | some _ => ⟨true, [], .msg acfExceptionMsg⟩
      | _ => ⟨true, [], .msg acfExceptionMsg⟩
    | some false =>
      match acf_json with
      | .obj o =>
        let group_key :=
          match o.lookup "key".data with
          | some (.str s) => s
          | some v => pyStrOfJ v
          | none => "group_".data ++ block_name
        ⟨true, [(group_key ++ ".json".data, format_json o)], .command o⟩
      | _ => ⟨true, [], .msg acfExceptionMsg⟩

/-- The workflow-state delta a step return commits: `acf_json` is written
only by a `Command` return. -/
def committedAcf : StepResult → Option JObj
  | ⟨_, _, .command o⟩ => some o
  | ⟨_, _, .msg _⟩ => none

/-- The five tools registered on the orchestrator
(`src/main.py` line 340), in declaration order. -/
def orchestratorToolNames : List PyStr :=
  ["update_block_info".data, "propose_fields".data,
   "generate_php_template".data, "generate_acf_json".data,
   "summarize_results".data]

/-- The `interrupt_on` table handed to `HumanInTheLoopMiddleware`
(`src/main.py` lines 346-352). -/
def interrupt_on : List (PyStr × Bool) :=
  [("update_block_info".data, false), ("propose_fields".data, true),
   ("generate_php_template".data, false), ("generate_acf_json".data, false),
   ("summarize_results".data, false)]

/-- Does executing the named step suspend the workflow for a human
decision?  A tool absent from the table never interrupts. -/
def stepSuspends (name : PyStr) : Bool :=
  (interrupt_on.lookup name).getD false

/-- The new-block branch of `main`'s conversational loop
(`src/main.py` lines 542-555): on a new-block intent, an incomplete session
with a truthy `block_name` prompts for confirmation and is abandoned only
when the stripped, lowercased answer is `"y"`; otherwise (complete or
unnamed) the session is left unconditionally.  Returns `true` when the
current session is abandoned (`in_block_session = False`). -/
def abandonsSession (state : BlockState) (confirm : PyStr) : Bool :=
  if !is_block_complete state && pyTruthyStr state.block_name then
    pyLower (pyStrip confirm) == "y".data
  else
    true

/-! Helper lemmas: whitespace skipping. -/

theorem skipWs_append_ws (w x : PyStr) (h : ∀ c ∈ w, isJsonWs c = true) :
    skipWs (w ++ x) = skipWs x := by
  unfold skipWs
  rw [List.dropWhile_append_of_pos h]

theorem skipWs_cons_not_ws (c : Char) (x : PyStr) (h : isJsonWs c = false) :
    skipWs (c :: x) = c :: x := by
  unfold skipWs
  rw [List.dropWhile_cons_of_neg (by simp [h])]

theorem nlIndent_ws (ind : Nat) : ∀ c ∈ nlIndent ind, isJsonWs c = true := by
  intro c hc
  unfold nlIndent at hc
  rcases List.mem_cons.1 hc with h | h
  · rw [h]; rfl
  · rw [List.eq_of_mem_replicate h]
    rfl

theorem skipWs_nlIndent (ind : Nat) (x : PyStr) :
    skipWs (nlIndent ind ++ x) = skipWs x :=
  skipWs_append_ws _ _ (nlIndent_ws ind)

/-! Helper lemmas: decimal digits. -/

theorem hexDigitChar_digit (k : Nat) (h : k < 10) :
    isDigitC (hexDigitChar k) = true := by
  interval_cases k <;> rfl

theorem hexDigitChar_toNat (k : Nat) (h : k < 10) :
    (hexDigitChar k).toNat = 48 + k := by
  interval_cases k <;> rfl

theorem natDigitsAux_ne_nil (fuel n : Nat) (h : n < fuel) :
    natDigitsAux fuel n ≠ [] := by
  match fuel with
  | fuel + 1 =>
    unfold natDigitsAux
    split
    · simp
    · simp

theorem natDigitsAux_digits (fuel n : Nat) :
    ∀ c ∈ natDigitsAux fuel n, isDigitC c = true := by
  induction fuel generalizing n with
  | zero => intro c hc; simp [natDigitsAux] at hc
  | succ fuel ih =>
    intro c hc
    unfold natDigitsAux at hc
    split at hc
    · rcases List.mem_singleton.1 hc with h
      rw [h]
      exact hexDigitChar_digit n (by omega)
    · rcases List.mem_append.1 hc with h | h
      · exact ih _ _ h
      · rw [List.mem_singleton.1 h]
        exact hexDigitChar_digit _ (Nat.mod_lt _ (by omega))

theorem natDigitsAux_head_ne_zero (fuel n : Nat) (hfuel : n < fuel) (hn : n ≠ 0) :
    ∀ c, (natDigitsAux fuel n).head? = some c → c ≠ '0' := by
  induction fuel generalizing n with
  | zero => omega
  | succ fuel ih =>
    intro c hc
    unfold natDigitsAux at hc
    split at hc
    · simp at hc
      subst hc
      have h10 : n < 10 := by assumption
      interval_cases n
      · omega
      all_goals decide
    · rename_i hge
      have hne := natDigitsAux_ne_nil fuel (n / 10) (by omega)
      rw [List.head?_append_of_ne_nil _ hne] at hc
      exact ih (n / 10) (by omega) (by omega) c hc

theorem natVal_append_digit (xs : PyStr) (c : Char) :
    natVal (xs ++ [c]) = natVal xs * 10 + (c.toNat - 48) := by
  unfold natVal
  rw [List.foldl_append]
  rfl

theorem natVal_natDigitsAux (fuel n : Nat) (h : n < fuel) :
    natVal (natDigitsAux fuel n) = n := by
  induction fuel generalizing n with
  | zero => omega
  | succ fuel ih =>
    unfold natDigitsAux
    split
    · rename_i h10
      show natVal [hexDigitChar n] = n
      unfold natVal
      simp [hexDigitChar_toNat n h10]
    · rename_i hge
      rw [natVal_append_digit]
      have hdiv : n / 10 < fuel := by omega
      rw [ih _ hdiv, hexDigitChar_toNat _ (Nat.mod_lt _ (by omega))]
      omega

theorem natVal_serNat (n : Nat) : natVal (serNat n) = n :=
  natVal_natDigitsAux (n + 1) n (by omega)

theorem serNat_ne_nil (n : Nat) : serNat n ≠ [] :=
  natDigitsAux_ne_nil (n + 1) n (by omega)

theorem serNat_digits (n : Nat) : ∀ c ∈ serNat n, isDigitC c = true :=
  natDigitsAux_digits (n + 1) n

/-- A head-test failure makes takeWhile empty. -/
theorem takeWhile_eq_nil_of_head (p : Char → Bool) (rest : PyStr)
    (h : ∀ c, rest.head? = some c → p c = false) :
    rest.takeWhile p = [] := by
  cases rest with
  | nil => rfl
  | cons c t =>
    rw [List.takeWhile_cons_of_neg]
    simp [h c rfl]

/-- A head-test failure makes dropWhile the identity. -/
theorem dropWhile_eq_self_of_head (p : Char → Bool) (rest : PyStr)
    (h : ∀ c, rest.head? = some c → p c = false) :
    rest.dropWhile p = rest := by
  cases rest with
  | nil => rfl
  | cons c t =>
    rw [List.dropWhile_cons_of_neg]
    simp [h c rfl]

/-- Parsing a rendered natural number recovers it, provided the remainder
does not begin with a digit. -/
theorem parseNat_serNat (n : Nat) (rest : PyStr)
    (h : ∀ c, rest.head? = some c → isDigitC c = false) :
    parseNat (serNat n ++ rest) = some (n, rest) := by
  by_cases hn : n = 0
  · subst hn
    have h0 : serNat 0 = ['0'] := rfl
    rw [h0]
    rfl
  · cases hsn : serNat n with
    | nil => exact absurd hsn (serNat_ne_nil n)
    | cons c cs =>
      have hdig : ∀ x ∈ c :: cs, isDigitC x = true := by
        rw [← hsn]; exact serNat_digits n
      have hc : isDigitC c = true := hdig c (List.mem_cons_self c cs)
      have hc0 : c ≠ '0' := by
        apply natDigitsAux_head_ne_zero (n + 1) n (by omega) hn
        rw [show natDigitsAux (n + 1) n = serNat n from rfl, hsn]
        rfl
      have hcs : ∀ x ∈ cs, isDigitC x = true := fun x hx =>
        hdig x (List.mem_cons_of_mem c hx)
      show parseNat (c :: (cs ++ rest)) = some (n, rest)
      simp only [parseNat]
      rw [if_neg hc0, if_pos hc]
      rw [List.takeWhile_append_of_pos hcs, List.dropWhile_append_of_pos hcs,
        takeWhile_eq_nil_of_head _ _ h, dropWhile_eq_self_of_head _ _ h,
        List.append_nil]
      rw [show c :: cs = serNat n from hsn.symm, natVal_serNat]

/-- The first digit of a rendered natural number is a digit, hence not a
minus sign. -/
theorem serNat_head_digit (n : Nat) :
    ∀ c, (serNat n).head? = some c → isDigitC c = true := by
  intro c hc
  cases hsn : serNat n with
  | nil => exact absurd hsn (serNat_ne_nil n)
  | cons c' cs =>
    rw [hsn] at hc
    simp at hc
    subst hc
    exact serNat_digits n c' (hsn ▸ List.mem_cons_self c' cs)

/-- Parsing a rendered integer recovers it, provided the remainder does not
begin with a digit. -/
theorem parseNum_serInt (n : Int) (rest : PyStr)
    (h : ∀ c, rest.head? = some c → isDigitC c = false) :
    parseNum (serInt n ++ rest) = some (.num n, rest) := by
  unfold serInt
  by_cases hn : n < 0
  · rw [if_pos hn]
    show parseNum ('-' :: (serNat n.natAbs ++ rest)) = some (.num n, rest)
    simp only [parseNum, if_true]
    rw [parseNat_serNat _ _ h]
    have hint : -(n.natAbs : Int) = n := by omega
    show some (JValue.num (-(n.natAbs : Int)), rest) = some (JValue.num n, rest)
    rw [hint]
  · rw [if_neg hn]
    cases hsn : serNat n.natAbs with
    | nil => exact absurd hsn (serNat_ne_nil n.natAbs)
    | cons c cs =>
      have hc : isDigitC c = true := by
        apply serNat_head_digit n.natAbs
        rw [hsn]; rfl
      have hcm : c ≠ '-' := by
        intro hceq
        subst hceq
        simp [isDigitC] at hc
      show parseNum (c :: (cs ++ rest)) = some (.num n, rest)
      simp only [parseNum]
      rw [if_neg hcm, show c :: (cs ++ rest) = (c :: cs) ++ rest from rfl,
        ← hsn, parseNat_serNat _ _ h]
      have hint : (n.natAbs : Int) = n := by omega
      show some (JValue.num ((n.natAbs : Int)), rest) = some (JValue.num n, rest)
      rw [hint]

/-! Helper lemmas: string escaping. -/

theorem hexVal_hexDigitChar (k : Nat) (h : k < 16) :
    hexVal (hexDigitChar k) = some k := by
  interval_cases k <;> decide

theorem hex4Val_hex4 (n : Nat) (h : n < 0x10000) :
    hex4Val (hexDigitChar (n / 4096 % 16)) (hexDigitChar (n / 256 % 16))
      (hexDigitChar (n / 16 % 16)) (hexDigitChar (n % 16)) = some n := by
  unfold hex4Val
  rw [hexVal_hexDigitChar _ (Nat.mod_lt _ (by omega)),
    hexVal_hexDigitChar _ (Nat.mod_lt _ (by omega)),
    hexVal_hexDigitChar _ (Nat.mod_lt _ (by omega)),
    hexVal_hexDigitChar _ (Nat.mod_lt _ (by omega))]
  show some _ = some n
  congr 1
  omega

/-- Unicode scalar values are below the surrogate range or above it. -/
theorem char_toNat_valid (c : Char) :
    c.toNat < 0xd800 ∨ (0xdfff < c.toNat ∧ c.toNat < 0x110000) :=
  c.valid

/-! String escape round trip. -/

theorem readHex4_hex4 (n : Nat) (X : PyStr) (h : n < 0x10000) :
    readHex4 (hex4 n ++ X) = some (n, X) := by
  show readHex4 (hexDigitChar (n / 4096 % 16) :: hexDigitChar (n / 256 % 16) ::
    hexDigitChar (n / 16 % 16) :: hexDigitChar (n % 16) :: X) = some (n, X)
  simp only [readHex4]
  rw [hex4Val_hex4 n h]
  rfl

theorem decodeU_nonsurrogate (n : Nat) (X : PyStr) (h : n < 0x10000)
    (hs : ¬(0xd800 ≤ n ∧ n < 0xe000)) :
    decodeUEscape (hex4 n ++ X) = some (Char.ofNat n, X) := by
  unfold decodeUEscape
  rw [readHex4_hex4 n X h]
  simp only [Option.some_bind]
  rw [if_neg (by omega : ¬(0xd800 ≤ n ∧ n < 0xdc00)),
    if_neg (by omega : ¬(0xdc00 ≤ n ∧ n < 0xe000))]

theorem decodeU_pair (n m : Nat) (X : PyStr)
    (hn : 0xd800 ≤ n ∧ n < 0xdc00) (hm : 0xdc00 ≤ m ∧ m < 0xe000) :
    decodeUEscape (hex4 n ++ ('\\' :: 'u' :: (hex4 m ++ X))) =
      some (Char.ofNat (0x10000 + (n - 0xd800) * 0x400 + (m - 0xdc00)), X) := by
  unfold decodeUEscape
  rw [readHex4_hex4 n _ (by omega)]
  simp only [Option.some_bind]
  rw [if_pos hn]
  rw [if_pos (by constructor <;> rfl :
    (('\\' :: 'u' :: (hex4 m ++ X)) : PyStr).head? = some '\\' ∧
      (('\\' :: 'u' :: (hex4 m ++ X)) : PyStr).tail.head? = some 'u')]
  show (readHex4 (hex4 m ++ X)).bind _ = _
  rw [readHex4_hex4 m _ (by omega)]
  simp only [Option.some_bind]
  rw [if_pos hm]

/-- Reduction of the parser on a unicode escape head. -/
theorem parseStrBodyAux_u (fuel : Nat) (r2 : PyStr) :
    parseStrBodyAux (fuel + 1) ('\\' :: 'u' :: r2) =
      (decodeUEscape r2).bind (fun q =>
        (parseStrBodyAux fuel q.2).map (fun p => (q.1 :: p.1, p.2))) := by
  simp [parseStrBodyAux]

/-- Decoding one escaped character costs one unit of fuel and prepends the
character. -/
theorem parseStrBodyAux_escChar (fuel : Nat) (c : Char) (X : PyStr) :
    parseStrBodyAux (fuel + 1) (escChar c ++ X) =
      (parseStrBodyAux fuel X).map (fun p => (c :: p.1, p.2)) := by
  unfold escChar
  by_cases h1 : c = '\"'
  · subst h1; simp [parseStrBodyAux]
  rw [if_neg h1]
  by_cases h2 : c = '\\'
  · subst h2; simp [parseStrBodyAux]
  rw [if_neg h2]
  by_cases h3 : c = '\n'
  · subst h3; simp [parseStrBodyAux]
  rw [if_neg h3]
  by_cases h4 : c = '\r'
  · subst h4; simp [parseStrBodyAux]
  rw [if_neg h4]
  by_cases h5 : c = '\t'
  · subst h5; simp [parseStrBodyAux]
  rw [if_neg h5]
  by_cases h6 : c = '\x08'
  · subst h6; simp [parseStrBodyAux]
  rw [if_neg h6]
  by_cases h7 : c = '\x0c'
  · subst h7; simp [parseStrBodyAux]
  rw [if_neg h7]
  by_cases h8 : 0x20 ≤ c.toNat ∧ c.toNat ≤ 0x7e
  · rw [if_pos h8]
    show parseStrBodyAux (fuel + 1) (c :: X) = _
    simp only [parseStrBodyAux]
    rw [if_neg h1, if_neg h2, if_neg (by omega : ¬(c.toNat < 0x20))]
  rw [if_neg h8]
  have hval := char_toNat_valid c
  by_cases h9 : c.toNat < 0x10000
  · rw [if_pos h9]
    show parseStrBodyAux (fuel + 1) ('\\' :: 'u' :: (hex4 c.toNat ++ X)) = _
    rw [parseStrBodyAux_u, decodeU_nonsurrogate _ _ h9 (by omega)]
    simp only [Option.some_bind, Char.ofNat_toNat]
  · rw [if_neg h9]
    have hlt : c.toNat < 0x110000 := by omega
    have hdivlt : (c.toNat - 0x10000) / 0x400 < 0x400 := by
      apply Nat.div_lt_of_lt_mul
      omega
    have hmodlt : (c.toNat - 0x10000) % 0x400 < 0x400 :=
      Nat.mod_lt _ (by omega)
    show parseStrBodyAux (fuel + 1) ('\\' :: 'u' :: (hex4 (0xd800 + (c.toNat - 0x10000) / 0x400) ++
      ('\\' :: 'u' :: (hex4 (0xdc00 + (c.toNat - 0x10000) % 0x400) ++ X)))) = _
    rw [parseStrBodyAux_u, decodeU_pair _ _ _ (by omega) (by omega)]
    simp only [Option.some_bind]
    have harith : 0x10000 + (0xd800 + (c.toNat - 0x10000) / 0x400 - 0xd800) * 0x400 +
        (0xdc00 + (c.toNat - 0x10000) % 0x400 - 0xdc00) = c.toNat := by
      have := Nat.div_add_mod (c.toNat - 0x10000) 0x400
      omega
    rw [harith, Char.ofNat_toNat]

/-- Decoding an escaped string body: one unit of fuel per character. -/
theorem parseStrBodyAux_strBody (s : PyStr) : ∀ (fuel : Nat) (X : PyStr),
    parseStrBodyAux (fuel + s.length + 1) ((s.map escChar).flatten ++ ('\"' :: X)) =
      some (s, X) := by
  induction s with
  | nil =>
    intro fuel X
    simp [parseStrBodyAux]
  | cons c s ih =>
    intro fuel X
    have hlen : fuel + (c :: s).length + 1 = (fuel + s.length + 1) + 1 := by
      simp [List.length_cons]
      omega
    rw [hlen, List.map_cons, List.flatten_cons, List.append_assoc]
    rw [parseStrBodyAux_escChar, ih fuel X]
    rfl

theorem escChar_length_pos (c : Char) : 0 < (escChar c).length := by
  unfold escChar
  split_ifs <;> simp [hex4]

theorem strBody_length_ge (s : PyStr) : s.length ≤ ((s.map escChar).flatten).length := by
  induction s with
  | nil => simp
  | cons c s ih =>
    simp only [List.map_cons, List.flatten_cons, List.length_append, List.length_cons]
    have := escChar_length_pos c
    omega

/-- The self-fueled string-body parser decodes a serialized string body. -/
theorem parseStrBody_strBody (s X : PyStr) :
    parseStrBody ((s.map escChar).flatten ++ ('\"' :: X)) = some (s, X) := by
  unfold parseStrBody
  have hge := strBody_length_ge s
  have hlen : ((s.map escChar).flatten ++ ('\"' :: X)).length + 1 =
      (((s.map escChar).flatten ++ ('\"' :: X)).length - s.length) + s.length + 1 := by
    simp only [List.length_append, List.length_cons]
    omega
  rw [hlen, parseStrBodyAux_strBody]

/-! Fuel accounting for the round trip: one unit per parser entry, so the
cost of a value bounds the fuel its parse consumes. -/

mutual

/-- Fuel needed to parse the serialization of a value. -/
def costV : JValue → Nat
  | .null => 1
  | .bool _ => 1
  | .num _ => 1
  | .str _ => 1
  | .arr .nil => 1
  | .arr (.cons v t) => 1 + max (costV v) (costTA t)
  | .obj .nil => 1
  | .obj (.cons _ v t) => 1 + max (costV v) (costTO t)

/-- Fuel needed to parse a serialized array continuation. -/
def costTA : JArr → Nat
  | .nil => 1
  | .cons v t => 1 + max (costV v) (costTA t)

/-- Fuel needed to parse a serialized object continuation. -/
def costTO : JObj → Nat
  | .nil => 1
  | .cons _ v t => 1 + max (costV v) (costTO t)

end

/-! Head-shape lemmas for serialized values. -/

theorem ne_of_digit (c d : Char) (hc : isDigitC c = true) (hd : isDigitC d = false) :
    c ≠ d := by
  intro h
  subst h
  rw [hc] at hd
  exact Bool.noConfusion hd

theorem digit_not_ws (c : Char) (hc : isDigitC c = true) : isJsonWs c = false := by
  have h1 : c ≠ ' ' := ne_of_digit c ' ' hc (by decide)
  have h2 : c ≠ '\t' := ne_of_digit c '\t' hc (by decide)
  have h3 : c ≠ '\n' := ne_of_digit c '\n' hc (by decide)
  have h4 : c ≠ '\r' := ne_of_digit c '\r' hc (by decide)
  simp [isJsonWs, h1, h2, h3, h4]

theorem serInt_head (n : Int) :
    ∃ c cs, serInt n = c :: cs ∧ (c = '-' ∨ isDigitC c = true) := by
  unfold serInt
  split_ifs with h
  · exact ⟨'-', serNat n.natAbs, rfl, Or.inl rfl⟩
  · cases hsn : serNat n.natAbs with
    | nil => exact absurd hsn (serNat_ne_nil _)
    | cons c cs =>
      refine ⟨c, cs, rfl, Or.inr ?_⟩
      apply serNat_head_digit n.natAbs
      rw [hsn]; rfl

/-- Every serialized value begins with a non-whitespace character that is
not a closing bracket, closing brace, or comma. -/
theorem serVal_head (ind : Nat) (v : JValue) :
    ∃ c cs, serVal ind v = c :: cs ∧ isJsonWs c = false ∧
      c ≠ ']' ∧ c ≠ '\x7d' ∧ c ≠ ',' := by
  cases v with
  | null => exact ⟨'n', _, rfl, by decide, by decide, by decide, by decide⟩
  | bool b =>
    cases b with
    | true => exact ⟨'t', _, rfl, by decide, by decide, by decide, by decide⟩
    | false => exact ⟨'f', _, rfl, by decide, by decide, by decide, by decide⟩
  | num n =>
    obtain ⟨c, cs, hser, hc⟩ := serInt_head n
    refine ⟨c, cs, hser, ?_, ?_, ?_, ?_⟩
    · rcases hc with rfl | hc
      · decide
      · exact digit_not_ws c hc
    · rcases hc with rfl | hc
      · decide
      · exact ne_of_digit c ']' hc (by decide)
    · rcases hc with rfl | hc
      · decide
      · exact ne_of_digit c '\x7d' hc (by decide)
    · rcases hc with rfl | hc
      · decide
      · exact ne_of_digit c ',' hc (by decide)
  | str s => exact ⟨'\"', _, rfl, by decide, by decide, by decide, by decide⟩
  | arr a =>
    cases a with
    | nil => exact ⟨'[', _, rfl, by decide, by decide, by decide, by decide⟩
    | cons v t => exact ⟨'[', _, rfl, by decide, by decide, by decide, by decide⟩
  | obj o =>
    cases o with
    | nil => exact ⟨'\x7b', _, rfl, by decide, by decide, by decide, by decide⟩
    | cons k v t => exact ⟨'\x7b', _, rfl, by decide, by decide, by decide, by decide⟩

/-- A serialized array continuation begins with a comma or a newline. -/
theorem serArrTail_head (ind : Nat) (a : JArr) :
    ∃ cs, (serArrTail ind a = ',' :: cs ∨ serArrTail ind a = '\n' :: cs) := by
  cases a with
  | nil => exact ⟨List.replicate (4 * ind) ' ' ++ "]".data, Or.inr rfl⟩
  | cons v t => exact ⟨_, Or.inl rfl⟩

/-- A serialized object continuation begins with a comma or a newline. -/
theorem serObjTail_head (ind : Nat) (o : JObj) :
    ∃ cs, (serObjTail ind o = ',' :: cs ∨ serObjTail ind o = '\n' :: cs) := by
  cases o with
  | nil => exact ⟨List.replicate (4 * ind) ' ' ++ "\x7d".data, Or.inr rfl⟩
  | cons k v t => exact ⟨_, Or.inl rfl⟩

/-- The remainder after a serialized value inside a container never starts
with a digit. -/
theorem serArrTail_append_head_not_digit (ind : Nat) (a : JArr) (rest : PyStr) :
    ∀ c, (serArrTail ind a ++ rest).head? = some c → isDigitC c = false := by
  intro c hc
  obtain ⟨cs, h | h⟩ := serArrTail_head ind a <;>
    rw [h] at hc <;> simp at hc <;> rw [← hc] <;> decide

theorem serObjTail_append_head_not_digit (ind : Nat) (o : JObj) (rest : PyStr) :
    ∀ c, (serObjTail ind o ++ rest).head? = some c → isDigitC c = false := by
  intro c hc
  obtain ⟨cs, h | h⟩ := serObjTail_head ind o <;>
    rw [h] at hc <;> simp at hc <;> rw [← hc] <;> decide

/-! Reduction lemmas for the value parser. -/

theorem parseVal_congr_skipWs (fuel : Nat) (s₁ s₂ : PyStr)
    (h : skipWs s₁ = skipWs s₂) : parseVal fuel s₁ = parseVal fuel s₂ := by
  cases fuel with
  | zero => rfl
  | succ fuel => simp only [parseVal, h]

theorem parseArrTail_congr_skipWs (fuel : Nat) (s₁ s₂ : PyStr)
    (h : skipWs s₁ = skipWs s₂) : parseArrTail fuel s₁ = parseArrTail fuel s₂ := by
  cases fuel with
  | zero => rfl
  | succ fuel => simp only [parseArrTail, h]

theorem parseObjTail_congr_skipWs (fuel : Nat) (s₁ s₂ : PyStr)
    (h : skipWs s₁ = skipWs s₂) : parseObjTail fuel s₁ = parseObjTail fuel s₂ := by
  cases fuel with
  | zero => rfl
  | succ fuel => simp only [parseObjTail, h]

theorem parseVal_red_null (fuel : Nat) (r : PyStr) :
    parseVal (fuel + 1) ('n' :: r) =
      (chopLit "ull".data r).map (fun r2 => (JValue.null, r2)) := by
  simp [parseVal, skipWs, List.dropWhile_cons, isJsonWs]

theorem parseVal_red_true (fuel : Nat) (r : PyStr) :
    parseVal (fuel + 1) ('t' :: r) =
      (chopLit "rue".data r).map (fun r2 => (JValue.bool true, r2)) := by
  simp [parseVal, skipWs, List.dropWhile_cons, isJsonWs]

theorem parseVal_red_false (fuel : Nat) (r : PyStr) :
    parseVal (fuel + 1) ('f' :: r) =
      (chopLit "alse".data r).map (fun r2 => (JValue.bool false, r2)) := by
  simp [parseVal, skipWs, List.dropWhile_cons, isJsonWs]

theorem parseVal_red_quote (fuel : Nat) (r : PyStr) :
    parseVal (fuel + 1) ('\"' :: r) =
      (parseStrBody r).map (fun p => (JValue.str p.1, p.2)) := by
  simp [parseVal, skipWs, List.dropWhile_cons, isJsonWs]

theorem parseVal_red_lbrack (fuel : Nat) (r : PyStr) :
    parseVal (fuel + 1) ('[' :: r) =
      (if (skipWs r).head? = some ']' then some (JValue.arr .nil, (skipWs r).tail)
       else
         (parseVal fuel (skipWs r)).bind (fun vr =>
           (parseArrTail fuel vr.2).map (fun tr =>
             (JValue.arr (.cons vr.1 tr.1), tr.2)))) := by
  simp [parseVal, skipWs, List.dropWhile_cons, isJsonWs]

theorem parseVal_red_lbrace (fuel : Nat) (r : PyStr) :
    parseVal (fuel + 1) ('\x7b' :: r) =
      (if (skipWs r).head? = some '\x7d' then some (JValue.obj .nil, (skipWs r).tail)
       else if (skipWs r).head? = some '\"' then
         (parseStrBody (skipWs r).tail).bind (fun kr =>
           if (skipWs kr.2).head? = some ':' then
             (parseVal fuel (skipWs kr.2).tail).bind (fun vr =>
               (parseObjTail fuel vr.2).map (fun tr =>
                 (JValue.obj (.cons kr.1 vr.1 tr.1), tr.2)))
           else none)
       else none) := by
  simp [parseVal, skipWs, List.dropWhile_cons, isJsonWs]

theorem parseVal_red_num (fuel : Nat) (c : Char) (r : PyStr)
    (h : c = '-' ∨ isDigitC c = true) :
    parseVal (fuel + 1) (c :: r) = parseNum (c :: r) := by
  have hws : isJsonWs c = false := by
    rcases h with rfl | h
    · decide
    · exact digit_not_ws c h
  have hn : c ≠ 'n' := by
    rcases h with rfl | h
    · decide
    · exact ne_of_digit c 'n' h (by decide)
  have ht : c ≠ 't' := by
    rcases h with rfl | h
    · decide
    · exact ne_of_digit c 't' h (by decide)
  have hf : c ≠ 'f' := by
    rcases h with rfl | h
    · decide
    · exact ne_of_digit c 'f' h (by decide)
  have hq : c ≠ '\"' := by
    rcases h with rfl | h
    · decide
    · exact ne_of_digit c '\"' h (by decide)
  have hlb : c ≠ '[' := by
    rcases h with rfl | h
    · decide
    · exact ne_of_digit c '[' h (by decide)
  have hlc : c ≠ '\x7b' := by
    rcases h with rfl | h
    · decide
    · exact ne_of_digit c '\x7b' h (by decide)
  simp only [parseVal]
  rw [skipWs_cons_not_ws c r hws]
  simp only [if_neg hn, if_neg ht, if_neg hf, if_neg hq, if_neg hlb, if_neg hlc]
  rw [if_pos h]

theorem parseArrTail_red (fuel : Nat) (s : PyStr) :
    parseArrTail (fuel + 1) s =
      (if (skipWs s).head? = some ']' then some (JArr.nil, (skipWs s).tail)
       else if (skipWs s).head? = some ',' then
         (parseVal fuel (skipWs s).tail).bind (fun vr =>
           (parseArrTail fuel vr.2).map (fun tr => (JArr.cons vr.1 tr.1, tr.2)))
       else none) := by
  simp only [parseArrTail]

theorem parseObjTail_red (fuel : Nat) (s : PyStr) :
    parseObjTail (fuel + 1) s =
      (if (skipWs s).head? = some '\x7d' then some (JObj.nil, (skipWs s).tail)
       else if (skipWs s).head? = some ',' then
         (if (skipWs (skipWs s).tail).head? = some '\"' then
           (parseStrBody (skipWs (skipWs s).tail).tail).bind (fun kr =>
             if (skipWs kr.2).head? = some ':' then
               (parseVal fuel (skipWs kr.2).tail).bind (fun vr =>
                 (parseObjTail fuel vr.2).map (fun tr =>
                   (JObj.cons kr.1 vr.1 tr.1, tr.2)))
             else none)
         else none)
       else none) := by
  simp only [parseObjTail]

/-! The serializer/parser round trip. -/

mutual

theorem parseVal_serVal : ∀ (v : JValue) (ind fuel : Nat) (rest : PyStr),
    costV v ≤ fuel → (∀ c, rest.head? = some c → isDigitC c = false) →
    parseVal fuel (serVal ind v ++ rest) = some (v, rest)
  | .null, ind, fuel, rest, hfuel, _ => by
    obtain ⟨f, rfl⟩ : ∃ f, fuel = f + 1 :=
      ⟨fuel - 1, by simp [costV] at hfuel; omega⟩
    show parseVal (f + 1) ('n' :: ('u' :: 'l' :: 'l' :: rest)) = _
    rw [parseVal_red_null]
    rfl
  | .bool true, ind, fuel, rest, hfuel, _ => by
    obtain ⟨f, rfl⟩ : ∃ f, fuel = f + 1 :=
      ⟨fuel - 1, by simp [costV] at hfuel; omega⟩
    show parseVal (f + 1) ('t' :: ('r' :: 'u' :: 'e' :: rest)) = _
    rw [parseVal_red_true]
    rfl
  | .bool false, ind, fuel, rest, hfuel, _ => by
    obtain ⟨f, rfl⟩ : ∃ f, fuel = f + 1 :=
      ⟨fuel - 1, by simp [costV] at hfuel; omega⟩
    show parseVal (f + 1) ('f' :: ('a' :: 'l' :: 's' :: 'e' :: rest)) = _
    rw [parseVal_red_false]
    rfl
  | .num n, ind, fuel, rest, hfuel, hrest => by
    obtain ⟨f, rfl⟩ : ∃ f, fuel = f + 1 :=
      ⟨fuel - 1, by simp [costV] at hfuel; omega⟩
    obtain ⟨c, cs, hser, hc⟩ := serInt_head n
    show parseVal (f + 1) (serInt n ++ rest) = _
    rw [hser, List.cons_append, parseVal_red_num f c _ hc,
      ← List.cons_append, ← hser, parseNum_serInt n rest hrest]
  | .str s, ind, fuel, rest, hfuel, _ => by
    obtain ⟨f, rfl⟩ : ∃ f, fuel = f + 1 :=
      ⟨fuel - 1, by simp [costV] at hfuel; omega⟩
    show parseVal (f + 1)
      ('\"' :: (((s.map escChar).flatten ++ ['\"']) ++ rest)) = _
    rw [parseVal_red_quote, List.append_assoc, List.singleton_append,
      parseStrBody_strBody]
    rfl
  | .arr .nil, ind, fuel, rest, hfuel, _ => by
    obtain ⟨f, rfl⟩ : ∃ f, fuel = f + 1 :=
      ⟨fuel - 1, by simp [costV] at hfuel; omega⟩
    show parseVal (f + 1) ('[' :: (']' :: rest)) = _
    rw [parseVal_red_lbrack, skipWs_cons_not_ws _ _ (by decide)]
    rfl
  | .arr (.cons v t), ind, fuel, rest, hfuel, _ => by
    obtain ⟨f, rfl⟩ : ∃ f, fuel = f + 1 :=
      ⟨fuel - 1, by simp [costV] at hfuel; omega⟩
    have hv : costV v ≤ f := by simp [costV] at hfuel; omega
    have ht : costTA t ≤ f := by simp [costV] at hfuel; omega
    obtain ⟨c0, cs0, hser0, hws0, hrb0, _, _⟩ := serVal_head (ind + 1) v
    rw [show serVal ind (.arr (.cons v t)) ++ rest =
      '[' :: (nlIndent (ind + 1) ++ (serVal (ind + 1) v ++ (serArrTail ind t ++ rest)))
      from by simp [serVal, List.append_assoc]]
    rw [parseVal_red_lbrack]
    have hskip : skipWs (nlIndent (ind + 1) ++
        (serVal (ind + 1) v ++ (serArrTail ind t ++ rest))) =
        serVal (ind + 1) v ++ (serArrTail ind t ++ rest) := by
      rw [skipWs_nlIndent, hser0, List.cons_append,
        skipWs_cons_not_ws _ _ hws0]
    rw [hskip]
    rw [if_neg (by rw [hser0, List.cons_append]; simp [hrb0])]
    rw [parseVal_serVal v (ind + 1) f _ hv
      (serArrTail_append_head_not_digit ind t rest)]
    simp only [Option.some_bind]
    rw [parseArrTail_serArrTail t ind f rest ht]
    rfl
  | .obj .nil, ind, fuel, rest, hfuel, _ => by
    obtain ⟨f, rfl⟩ : ∃ f, fuel = f + 1 :=
      ⟨fuel - 1, by simp [costV] at hfuel; omega⟩
    show parseVal (f + 1) ('\x7b' :: ('\x7d' :: rest)) = _
    rw [parseVal_red_lbrace, skipWs_cons_not_ws _ _ (by decide)]
    rfl
  | .obj (.cons k v t), ind, fuel, rest, hfuel, _ => by
    obtain ⟨f, rfl⟩ : ∃ f, fuel = f + 1 :=
      ⟨fuel - 1, by simp [costV] at hfuel; omega⟩
    have hv : costV v ≤ f := by simp [costV] at hfuel; omega
    have ht : costTO t ≤ f := by simp [costV] at hfuel; omega
    rw [show serVal ind (.obj (.cons k v t)) ++ rest =
      '\x7b' :: (nlIndent (ind + 1) ++ ('\"' :: ((k.map escChar).flatten ++
        ('\"' :: (':' :: (' ' :: (serVal (ind + 1) v ++ (serObjTail ind t ++ rest))))))))
      from by simp [serVal, serStr, List.append_assoc]]
    rw [parseVal_red_lbrace]
    have hskip : skipWs (nlIndent (ind + 1) ++ ('\"' :: ((k.map escChar).flatten ++
        ('\"' :: (':' :: (' ' :: (serVal (ind + 1) v ++ (serObjTail ind t ++ rest)))))))) =
        '\"' :: ((k.map escChar).flatten ++
          ('\"' :: (':' :: (' ' :: (serVal (ind + 1) v ++ (serObjTail ind t ++ rest)))))) := by
      rw [skipWs_nlIndent, skipWs_cons_not_ws _ _ (by decide)]
    rw [hskip]
    rw [if_neg (by simp)]
    rw [if_pos (by simp)]
    show (parseStrBody ((k.map escChar).flatten ++
      ('\"' :: (':' :: (' ' :: (serVal (ind + 1) v ++ (serObjTail ind t ++ rest))))))).bind _ = _
    rw [parseStrBody_strBody]
    simp only [Option.some_bind]
    rw [show skipWs (':' :: (' ' :: (serVal (ind + 1) v ++ (serObjTail ind t ++ rest)))) =
      ':' :: (' ' :: (serVal (ind + 1) v ++ (serObjTail ind t ++ rest)))
      from skipWs_cons_not_ws _ _ (by decide)]
    rw [if_pos (by simp)]
    show (parseVal f (' ' :: (serVal (ind + 1) v ++ (serObjTail ind t ++ rest)))).bind _ = _
    rw [parseVal_congr_skipWs f _ (serVal (ind + 1) v ++ (serObjTail ind t ++ rest))
      (by rw [show (' ' :: (serVal (ind + 1) v ++ (serObjTail ind t ++ rest)) : PyStr) =
        [' '] ++ (serVal (ind + 1) v ++ (serObjTail ind t ++ rest)) from rfl,
        skipWs_append_ws _ _ (by decide)])]
    rw [parseVal_serVal v (ind + 1) f _ hv
      (serObjTail_append_head_not_digit ind t rest)]
    simp only [Option.some_bind]
    rw [parseObjTail_serObjTail t ind f rest ht]
    rfl

theorem parseArrTail_serArrTail : ∀ (a : JArr) (ind fuel : Nat) (rest : PyStr),
    costTA a ≤ fuel →
    parseArrTail fuel (serArrTail ind a ++ rest) = some (a, rest)
  | .nil, ind, fuel, rest, hfuel => by
    obtain ⟨f, rfl⟩ : ∃ f, fuel = f + 1 :=
      ⟨fuel - 1, by simp [costTA] at hfuel; omega⟩
    rw [show serArrTail ind .nil ++ rest = nlIndent ind ++ (']' :: rest)
      from by simp [serArrTail]]
    rw [parseArrTail_red]
    rw [skipWs_nlIndent, skipWs_cons_not_ws _ _ (by decide)]
    rfl
  | .cons v t, ind, fuel, rest, hfuel => by
    obtain ⟨f, rfl⟩ : ∃ f, fuel = f + 1 :=
      ⟨fuel - 1, by simp [costTA] at hfuel; omega⟩
    have hv : costV v ≤ f := by simp [costTA] at hfuel; omega
    have ht : costTA t ≤ f := by simp [costTA] at hfuel; omega
    rw [show serArrTail ind (.cons v t) ++ rest =
      ',' :: (nlIndent (ind + 1) ++ (serVal (ind + 1) v ++ (serArrTail ind t ++ rest)))
      from by simp [serArrTail, List.append_assoc]]
    rw [parseArrTail_red]
    rw [skipWs_cons_not_ws _ _ (by decide)]
    rw [if_neg (by simp), if_pos (by simp)]
    show (parseVal f (nlIndent (ind + 1) ++
      (serVal (ind + 1) v ++ (serArrTail ind t ++ rest)))).bind _ = _
    rw [parseVal_congr_skipWs f _ (serVal (ind + 1) v ++ (serArrTail ind t ++ rest))
      (skipWs_nlIndent _ _)]
    rw [parseVal_serVal v (ind + 1) f _ hv
      (serArrTail_append_head_not_digit ind t rest)]
    simp only [Option.some_bind]
    rw [parseArrTail_serArrTail t ind f rest ht]
    rfl

theorem parseObjTail_serObjTail : ∀ (o : JObj) (ind fuel : Nat) (rest : PyStr),
    costTO o ≤ fuel →
    parseObjTail fuel (serObjTail ind o ++ rest) = some (o, rest)
  | .nil, ind, fuel, rest, hfuel => by
    obtain ⟨f, rfl⟩ : ∃ f, fuel = f + 1 :=
      ⟨fuel - 1, by simp [costTO] at hfuel; omega⟩
    rw [show serObjTail ind .nil ++ rest = nlIndent ind ++ ('\x7d' :: rest)
      from by simp [serObjTail]]
    rw [parseObjTail_red]
    rw [skipWs_nlIndent, skipWs_cons_not_ws _ _ (by decide)]
    rfl
  | .cons k v t, ind, fuel, rest, hfuel => by
    obtain ⟨f, rfl⟩ : ∃ f, fuel = f + 1 :=
      ⟨fuel - 1, by simp [costTO] at hfuel; omega⟩
    have hv : costV v ≤ f := by simp [costTO] at hfuel; omega
    have ht : costTO t ≤ f := by simp [costTO] at hfuel; omega
    rw [show serObjTail ind (.cons k v t) ++ rest =
      ',' :: (nlIndent (ind + 1) ++ ('\"' :: ((k.map escChar).flatten ++
        ('\"' :: (':' :: (' ' :: (serVal (ind + 1) v ++ (serObjTail ind t ++ rest))))))))
      from by simp [serObjTail, serStr, List.append_assoc]]
    rw [parseObjTail_red]
    rw [skipWs_cons_not_ws _ _ (by decide)]
    rw [if_neg (by simp), if_pos (by simp)]
    have hskip : skipWs (List.tail (',' :: (nlIndent (ind + 1) ++ ('\"' :: ((k.map escChar).flatten ++
        ('\"' :: (':' :: (' ' :: (serVal (ind + 1) v ++ (serObjTail ind t ++ rest)))))))))) =
        '\"' :: ((k.map escChar).flatten ++
          ('\"' :: (':' :: (' ' :: (serVal (ind + 1) v ++ (serObjTail ind t ++ rest)))))) := by
      show skipWs (nlIndent (ind + 1) ++ _) = _
      rw [skipWs_nlIndent, skipWs_cons_not_ws _ _ (by decide)]
    rw [hskip]
    rw [if_pos (by simp)]
    show (parseStrBody ((k.map escChar).flatten ++
      ('\"' :: (':' :: (' ' :: (serVal (ind + 1) v ++ (serObjTail ind t ++ rest))))))).bind _ = _
    rw [parseStrBody_strBody]
    simp only [Option.some_bind]
    rw [show skipWs (':' :: (' ' :: (serVal (ind + 1) v ++ (serObjTail ind t ++ rest)))) =
      ':' :: (' ' :: (serVal (ind + 1) v ++ (serObjTail ind t ++ rest)))
      from skipWs_cons_not_ws _ _ (by decide)]
    rw [if_pos (by simp)]
    show (parseVal f (' ' :: (serVal (ind + 1) v ++ (serObjTail ind t ++ rest)))).bind _ = _
    rw [parseVal_congr_skipWs f _ (serVal (ind + 1) v ++ (serObjTail ind t ++ rest))
      (by rw [show (' ' :: (serVal (ind + 1) v ++ (serObjTail ind t ++ rest)) : PyStr) =
        [' '] ++ (serVal (ind + 1) v ++ (serObjTail ind t ++ rest)) from rfl,
        skipWs_append_ws _ _ (by decide)])]
    rw [parseVal_serVal v (ind + 1) f _ hv
      (serObjTail_append_head_not_digit ind t rest)]
    simp only [Option.some_bind]
    rw [parseObjTail_serObjTail t ind f rest ht]
    rfl

end

/-! The fuel supplied by `jsonLoads` — one unit per input character plus
one — is always enough, because every serialized node is at least one
character long. -/

theorem serNat_length_pos (n : Nat) : 0 < (serNat n).length := by
  cases hsn : serNat n with
  | nil => exact absurd hsn (serNat_ne_nil n)
  | cons c cs => simp

theorem serInt_length_pos (n : Int) : 0 < (serInt n).length := by
  unfold serInt
  split_ifs
  · simp
  · exact serNat_length_pos _

mutual

theorem costV_le_length : ∀ (v : JValue) (ind : Nat),
    costV v ≤ (serVal ind v).length
  | .null, ind => by simp [costV, serVal]
  | .bool true, ind => by simp [costV, serVal]
  | .bool false, ind => by simp [costV, serVal]
  | .num n, ind => by
    have := serInt_length_pos n
    simp only [costV, serVal]
    omega
  | .str s, ind => by simp [costV, serVal, serStr]
  | .arr .nil, ind => by simp [costV, serVal]
  | .arr (.cons v t), ind => by
    have hv := costV_le_length v (ind + 1)
    have ht := costTA_le_length t ind
    simp only [costV, serVal, List.length_cons, List.length_append]
    omega
  | .obj .nil, ind => by simp [costV, serVal]
  | .obj (.cons k v t), ind => by
    have hv := costV_le_length v (ind + 1)
    have ht := costTO_le_length t ind
    simp only [costV, serVal, List.length_cons, List.length_append]
    omega

theorem costTA_le_length : ∀ (a : JArr) (ind : Nat),
    costTA a ≤ (serArrTail ind a).length
  | .nil, ind => by simp [costTA, serArrTail]
  | .cons v t, ind => by
    have hv := costV_le_length v (ind + 1)
    have ht := costTA_le_length t ind
    simp only [costTA, serArrTail, List.length_cons, List.length_append]
    omega

theorem costTO_le_length : ∀ (o : JObj) (ind : Nat),
    costTO o ≤ (serObjTail ind o).length
  | .nil, ind => by simp [costTO, serObjTail]
  | .cons k v t, ind => by
    have hv := costV_le_length v (ind + 1)
    have ht := costTO_le_length t ind
    simp only [costTO, serObjTail, List.length_cons, List.length_append]
    omega

end

/-- The embedded `json.loads` inverts the embedded
`json.dumps(..., indent=4)` on every JSON value. -/
theorem jsonLoads_serVal (v : JValue) : jsonLoads (serVal 0 v) = some v := by
  unfold jsonLoads
  have hcost : costV v ≤ (serVal 0 v).length + 1 :=
    Nat.le_succ_of_le (costV_le_length v 0)
  have h := parseVal_serVal v 0 ((serVal 0 v).length + 1) [] hcost
    (by intro c hc; simp at hc)
  rw [List.append_nil] at h
  rw [h]
  rfl

/-! Substring membership is invariant under stripping, because the phrases
involved neither start nor end with whitespace. -/

theorem pyStrIn_infix_iff (needle : PyStr) : ∀ hay : PyStr,
    pyStrIn needle hay = true ↔ needle <:+: hay := by
  intro hay
  induction hay with
  | nil =>
    simp only [pyStrIn, List.isEmpty_iff, List.infix_nil]
  | cons c t ih =>
    simp only [pyStrIn, Bool.or_eq_true, List.isPrefixOf_iff_prefix, ih,
      List.infix_cons_iff]

theorem infix_dropWhile_iff (q : Char → Bool) (needle : PyStr)
    (hhead : ∀ c, needle.head? = some c → q c = false) (l : PyStr) :
    needle <:+: l.dropWhile q ↔ needle <:+: l := by
  constructor
  · intro h
    exact h.trans (List.dropWhile_suffix q).isInfix
  · intro h
    cases hnd : needle with
    | nil => exact List.nil_infix
    | cons c0 n' =>
      subst hnd
      obtain ⟨sp, tp, hl⟩ := h
      by_cases hk : (l.takeWhile q).length ≤ sp.length
      · have h2 : sp <+: l := ⟨(c0 :: n') ++ tp, by rw [← List.append_assoc, hl]⟩
        obtain ⟨sp', hsp⟩ :=
          List.prefix_of_prefix_length_le (List.takeWhile_prefix q) h2 hk
        refine ⟨sp', tp, ?_⟩
        refine @List.append_cancel_left _ (l.takeWhile q) _ _ ?_
        calc l.takeWhile q ++ (sp' ++ (c0 :: n') ++ tp)
            = (l.takeWhile q ++ sp') ++ (c0 :: n') ++ tp := by
              simp [List.append_assoc]
          _ = sp ++ (c0 :: n') ++ tp := by rw [hsp]
          _ = l := hl
          _ = l.takeWhile q ++ l.dropWhile q :=
              (List.takeWhile_append_dropWhile q l).symm
      · exfalso
        push_neg at hk
        have h2 : sp <+: l := ⟨(c0 :: n') ++ tp, by rw [← List.append_assoc, hl]⟩
        obtain ⟨u, hu⟩ := List.prefix_of_prefix_length_le h2
          (List.takeWhile_prefix q) (Nat.le_of_lt hk)
        have hune : u ≠ [] := by
          intro h0
          rw [h0, List.append_nil] at hu
          rw [← hu] at hk
          omega
        have heq : u ++ l.dropWhile q = (c0 :: n') ++ tp := by
          refine @List.append_cancel_left _ sp _ _ ?_
          calc sp ++ (u ++ l.dropWhile q)
              = (sp ++ u) ++ l.dropWhile q := by simp [List.append_assoc]
            _ = l.takeWhile q ++ l.dropWhile q := by rw [hu]
            _ = l := List.takeWhile_append_dropWhile q l
            _ = sp ++ ((c0 :: n') ++ tp) := by rw [← hl]; simp [List.append_assoc]
        cases u with
        | nil => exact hune rfl
        | cons u0 u' =>
          have hu0 : u0 = c0 := by
            have := congrArg List.head? heq
            simpa using this
          have hmem : u0 ∈ l.takeWhile q := by
            rw [← hu]
            exact List.mem_append_right sp (List.mem_cons_self u0 u')
          have hq := List.mem_takeWhile_imp hmem
          rw [hu0, hhead c0 rfl] at hq
          exact Bool.noConfusion hq

/-- Substring membership is invariant under `pyStrip` for a needle whose
first and last characters are not whitespace. -/
theorem infix_pyStrip_iff (needle : PyStr)
    (hhead : ∀ c, needle.head? = some c → pyIsSpace c = false)
    (hlast : ∀ c, needle.getLast? = some c → pyIsSpace c = false) (l : PyStr) :
    needle <:+: pyStrip l ↔ needle <:+: l := by
  unfold pyStrip
  constructor
  · intro h
    rw [← List.reverse_infix] at h
    rw [List.reverse_reverse] at h
    rw [infix_dropWhile_iff pyIsSpace needle.reverse
      (by intro c hc; rw [List.head?_reverse] at hc; exact hlast c hc)] at h
    rw [List.reverse_infix] at h
    rw [infix_dropWhile_iff pyIsSpace needle hhead] at h
    exact h
  · intro h
    rw [← List.reverse_infix, List.reverse_reverse]
    rw [infix_dropWhile_iff pyIsSpace needle.reverse
      (by intro c hc; rw [List.head?_reverse] at hc; exact hlast c hc)]
    rw [List.reverse_infix]
    rw [infix_dropWhile_iff pyIsSpace needle hhead]
    exact h

/-! Behaviour of `pyStrip` at whitespace and non-whitespace edges. -/

theorem pyStrip_eq_self (l : PyStr)
    (h1 : ∀ c, l.head? = some c → pyIsSpace c = false)
    (h2 : ∀ c, l.getLast? = some c → pyIsSpace c = false) : pyStrip l = l := by
  unfold pyStrip
  rw [dropWhile_eq_self_of_head pyIsSpace l h1]
  rw [dropWhile_eq_self_of_head pyIsSpace l.reverse
    (by intro c hc; rw [List.head?_reverse] at hc; exact h2 c hc)]
  exact List.reverse_reverse l

theorem pyStrip_cons_ws (c : Char) (l : PyStr) (h : pyIsSpace c = true) :
    pyStrip (c :: l) = pyStrip l := by
  unfold pyStrip
  rw [List.dropWhile_cons_of_pos (by simp [h])]

theorem pyStrip_append_ws (l : PyStr) (c : Char) (h : pyIsSpace c = true) :
    pyStrip (l ++ [c]) = pyStrip l := by
  unfold pyStrip
  rw [List.dropWhile_append]
  by_cases he : (l.dropWhile pyIsSpace).isEmpty
  · rw [if_pos he]
    rw [List.isEmpty_iff] at he
    rw [he]
    rw [List.dropWhile_cons_of_pos (by simp [h])]
    rfl
  · rw [if_neg he]
    rw [List.reverse_append]
    rw [show ([c] : PyStr).reverse = [c] from rfl]
    rw [show ([c] : PyStr) ++ (l.dropWhile pyIsSpace).reverse =
      c :: (l.dropWhile pyIsSpace).reverse from rfl]
    rw [List.dropWhile_cons_of_pos (by simp [h])]

/-- The markdown-fence clean-up undoes exactly the fence wrapping: a fenced
JSON text with non-whitespace edges is recovered verbatim. -/
theorem cleanSavedOutput_fence (s : PyStr) (hs : pyStrip s = s) :
    cleanSavedOutput ("```json\n".data ++ (s ++ "\n```".data)) = s := by
  unfold cleanSavedOutput
  dsimp only
  have h0 : pyStrip ("```json\n".data ++ (s ++ "\n```".data)) =
      "```json\n".data ++ (s ++ "\n```".data) := by
    apply pyStrip_eq_self
    · intro c hc
      rw [show ("```json\n".data ++ (s ++ "\n```".data) : PyStr) =
        '\x60' :: ("``json\n".data ++ (s ++ "\n```".data)) from rfl] at hc
      simp at hc
      rw [← hc]
      decide
    · intro c hc
      rw [show ("```json\n".data ++ (s ++ "\n```".data) : PyStr) =
        ("```json\n".data ++ (s ++ "\n``".data)) ++ ['\x60'] from by
          simp [List.append_assoc]] at hc
      rw [List.getLast?_concat] at hc
      simp at hc
      rw [← hc]
      decide
  rw [h0]
  show pyStrip (if (("```".data : PyStr).isSuffixOf ('\n' :: (s ++ "\n```".data))) = true
      then List.take ((('\n' :: (s ++ "\n```".data)) : PyStr).length - 3)
        ('\n' :: (s ++ "\n```".data))
      else '\n' :: (s ++ "\n```".data)) = s
  have h3 : (("```".data : PyStr).isSuffixOf ('\n' :: (s ++ "\n```".data))) = true := by
    rw [List.isSuffixOf_iff_suffix]
    rw [show ('\n' :: (s ++ "\n```".data) : PyStr) =
      ('\n' :: (s ++ ['\n'])) ++ "```".data from by simp [List.append_assoc]]
    exact List.suffix_append _ _
  rw [if_pos h3]
  have hB : ('\n' :: (s ++ "\n```".data) : PyStr) =
      ('\n' :: (s ++ ['\n'])) ++ "```".data := by simp [List.append_assoc]
  rw [hB]
  have hlen : ((('\n' :: (s ++ ['\n'])) ++ "```".data : PyStr)).length - 3 =
      (('\n' :: (s ++ ['\n'])) : PyStr).length := by simp
  rw [hlen, List.take_left]
  rw [pyStrip_cons_ws _ _ (by decide), pyStrip_append_ws _ _ (by decide), hs]

/-! Behaviour of the embedded agent and tool on the parse-failure path. -/

theorem JObj.isEmpty_iff (o : JObj) : o.isEmpty = true ↔ o = .nil := by
  cases o <;> simp [JObj.isEmpty]

/-- On unparseable saved output, `create_field_group` returns the
error/raw-output record. -/
theorem create_field_group_parse_failure (saved lastMsg : PyStr)
    (hsaved : saved ≠ []) (hfail : jsonLoads (cleanSavedOutput saved) = none) :
    create_field_group (some saved) lastMsg =
      .obj (.cons "error".data (.str parseFailMsg)
        (.cons "raw_output".data (.str (cleanSavedOutput saved)) .nil)) := by
  unfold create_field_group
  dsimp only
  have hempty : saved.isEmpty = false := by
    cases saved with
    | nil => exact absurd rfl hsaved
    | cons c t => rfl
  rw [hempty]
  rw [hfail]
  rfl

/-- On unparseable saved output with a present template, `generate_acf_json`
writes exactly the raw fallback file, commits nothing, and returns the
partial-success message. -/
theorem generate_acf_json_parse_failure (st : BlockState) (saved lastMsg : PyStr)
    (hphp : pyTruthyStr st.php_template = true) (hsaved : saved ≠ [])
    (hfail : jsonLoads (cleanSavedOutput saved) = none) :
    generate_acf_json (some saved) lastMsg st =
      ⟨true, [(st.block_name.getD [] ++ "-acf-raw.txt".data, cleanSavedOutput saved)],
        .msg ("Partial success. Raw output saved to: ".data ++
          (st.output_dir.getD "output".data ++ '/' ::
            (st.block_name.getD [] ++ "-acf-raw.txt".data)))⟩ := by
  unfold generate_acf_json
  dsimp only
  have hempty : (st.php_template.getD []).isEmpty = false := by
    cases hp : st.php_template with
    | none => rw [hp] at hphp; exact absurd hphp (by decide)
    | some s =>
      rw [hp] at hphp
      simp [pyTruthyStr] at hphp
      simpa using hphp
  rw [hempty]
  rw [create_field_group_parse_failure saved lastMsg hsaved hfail]
  rfl

/-! Helpers for the intent-classification claim. -/

theorem head_not_space_of_cons (d : Char) (cs : PyStr) (hd : pyIsSpace d = false) :
    ∀ c, ((d :: cs) : PyStr).head? = some c → pyIsSpace c = false := by
  intro c hc
  simp at hc
  rw [← hc]
  exact hd

theorem last_not_space_of_eq (p : PyStr) (d : Char) (h : p.getLast? = some d)
    (hd : pyIsSpace d = false) :
    ∀ c, p.getLast? = some c → pyIsSpace c = false := by
  intro c hc
  rw [h] at hc
  simp at hc
  rw [← hc]
  exact hd

/-- None of the new-block phrases starts or ends with whitespace, so their
substring occurrence is unaffected by stripping the haystack. -/
theorem newBlockPhrase_strip_invariant (p : PyStr) (hp : p ∈ newBlockPhrases)
    (l : PyStr) : p <:+: pyStrip l ↔ p <:+: l := by
  have hmem := hp
  simp only [newBlockPhrases, List.mem_cons, List.mem_singleton,
    List.not_mem_nil, or_false] at hmem
  rcases hmem with rfl | rfl | rfl | rfl | rfl
  · exact infix_pyStrip_iff ("new block".data) (head_not_space_of_cons 'n' _ (by decide))
      (last_not_space_of_eq ("new block".data) 'k' rfl (by decide)) l
  · exact infix_pyStrip_iff ("another block".data) (head_not_space_of_cons 'a' _ (by decide))
      (last_not_space_of_eq ("another block".data) 'k' rfl (by decide)) l
  · exact infix_pyStrip_iff ("start over".data) (head_not_space_of_cons 's' _ (by decide))
      (last_not_space_of_eq ("start over".data) 'r' rfl (by decide)) l
  · exact infix_pyStrip_iff ("different block".data) (head_not_space_of_cons 'd' _ (by decide))
      (last_not_space_of_eq ("different block".data) 'k' rfl (by decide)) l
  · exact infix_pyStrip_iff ("next block".data) (head_not_space_of_cons 'n' _ (by decide))
      (last_not_space_of_eq ("next block".data) 'k' rfl (by decide)) l

/-- The code's phrase scan over the stripped, lowercased input is equivalent
to substring occurrence in the lowercased input. -/
theorem newBlock_any_iff (s : PyStr) :
    (newBlockPhrases.any (fun p => pyStrIn p (pyStrip (pyLower s))) = true) ↔
      (∃ p ∈ newBlockPhrases, p <:+: pyLower s) := by
  rw [List.any_eq_true]
  constructor
  · rintro ⟨p, hp, hin⟩
    exact ⟨p, hp, (newBlockPhrase_strip_invariant p hp _).1
      ((pyStrIn_infix_iff p _).1 hin)⟩
  · rintro ⟨p, hp, hinf⟩
    exact ⟨p, hp, (pyStrIn_infix_iff p _).2
      ((newBlockPhrase_strip_invariant p hp _).2 hinf)⟩

/-! The claims. -/

/-- C3: `sanitize_block_name` performs exactly the normalization the spec
describes — lowercase, first four whitespace-separated words joined with
hyphens, characters outside `[a-z0-9-]` deleted, hyphen runs collapsed,
edge hyphens trimmed, truncation to 50 characters — and on the input
"My Cool Block!!" it yields "my-cool-block". -/
theorem C3_sanitize_block_name :
    (∀ s : PyStr, sanitize_block_name s = sanitizeBlockNameSpec s) ∧
    sanitize_block_name "My Cool Block!!".data = "my-cool-block".data := by
  constructor
  · intro s
    rfl
  · rfl

/-- C2: `is_block_complete` holds exactly when the state has a non-empty
`php_template`, a non-empty `acf_json`, and the `acf_json` record has no
"error" key — completion is decided by the output artifacts, not by a step
counter. -/
theorem C2_is_block_complete (state : BlockState) :
    is_block_complete state = true ↔
      ((∃ p, state.php_template = some p ∧ p ≠ []) ∧
       (∃ o, state.acf_json = some o ∧ o ≠ JObj.nil ∧
         o.hasKey "error".data = false)) := by
  unfold is_block_complete
  cases hp : state.php_template with
  | none => simp [pyTruthyStr, hp]
  | some p =>
    cases ha : state.acf_json with
    | none => simp [pyTruthyStr, pyTruthyObj, hp, ha]
    | some o =>
      simp only [pyTruthyStr, pyTruthyObj, hp, ha, Option.getD_some,
        Bool.and_eq_true, Bool.not_eq_true', Option.some.injEq]
      constructor
      · rintro ⟨hpe, hoe, hk⟩
        refine ⟨⟨p, rfl, ?_⟩, ⟨o, rfl, ?_, hk⟩⟩
        · intro h0
          rw [h0] at hpe
          exact Bool.noConfusion hpe
        · intro h0
          rw [h0] at hoe
          exact Bool.noConfusion hoe
      · rintro ⟨⟨p', hp', hpe⟩, ⟨o', ho', hoe, hk⟩⟩
        subst hp'
        subst ho'
        refine ⟨?_, ?_, hk⟩
        · cases p with
          | nil => exact absurd rfl hpe
          | cons c t => rfl
        · cases o with
          | nil => exact absurd rfl hoe
          | cons k v t => rfl

/-- C9: the configuration file persisted through `format_json` faithfully
encodes the in-memory field group: parsing `format_json g` with the
embedded standard JSON parser returns `g` itself, for every field-group
record representable in the embedding (string keys, integer numbers). -/
theorem C9_format_json_roundtrip (g : JObj) :
    jsonLoads (format_json g) = some (.obj g) := by
  unfold format_json
  exact jsonLoads_serVal (.obj g)

/-- C10: `create_field_group` strips surrounding whitespace and markdown
code fences before parsing, so a valid JSON text (with non-whitespace
edges) wrapped in a ```json fence still parses to the same value instead
of producing a parse error. -/
theorem C10_fence_tolerant_parse (s : PyStr) (v : JValue) (lastMsg : PyStr)
    (hedges : pyStrip s = s) (hparse : jsonLoads s = some v) :
    create_field_group (some ("```json\n".data ++ (s ++ "\n```".data))) lastMsg = v ∧
    cleanSavedOutput ("```json\n".data ++ (s ++ "\n```".data)) = s := by
  have hclean := cleanSavedOutput_fence s hedges
  refine ⟨?_, hclean⟩
  unfold create_field_group
  dsimp only
  rw [hclean, hparse]
  rfl

/-- C10 witness: the fenced empty object parses back to the empty object. -/
theorem C10_witness :
    pyStrip "\x7b\x7d".data = "\x7b\x7d".data ∧
    jsonLoads "\x7b\x7d".data = some (.obj .nil) ∧
    (create_field_group (some ("```json\n".data ++ ("\x7b\x7d".data ++ "\n```".data))) [] =
        .obj .nil ∧
      cleanSavedOutput ("```json\n".data ++ ("\x7b\x7d".data ++ "\n```".data)) =
        "\x7b\x7d".data) :=
  ⟨rfl, rfl, C10_fence_tolerant_parse ("\x7b\x7d".data) (.obj .nil) [] rfl rfl⟩

/-- C1: when the backend's saved output fails to parse, `create_field_group`
returns a record carrying both an error description and the raw unparsed
output under "raw_output", and `generate_acf_json` neither raises nor
commits an `acf_json` entry: it saves the raw fallback artifact and returns
a plain partial-success message, leaving the workflow state unchanged so
the session stays active and resumable. -/
theorem C1_parse_failure_keeps_session_active (st : BlockState)
    (saved lastMsg : PyStr)
    (hphp : pyTruthyStr st.php_template = true) (hsaved : saved ≠ [])
    (hfail : jsonLoads (cleanSavedOutput saved) = none) :
    (∃ o, create_field_group (some saved) lastMsg = .obj o ∧
      (o.lookup "error".data).isSome = true ∧
      o.lookup "raw_output".data = some (.str (cleanSavedOutput saved))) ∧
    committedAcf (generate_acf_json (some saved) lastMsg st) = none ∧
    (generate_acf_json (some saved) lastMsg st).filesWritten =
      [(st.block_name.getD [] ++ "-acf-raw.txt".data, cleanSavedOutput saved)] ∧
    (generate_acf_json (some saved) lastMsg st).ret =
      .msg ("Partial success. Raw output saved to: ".data ++
        (st.output_dir.getD "output".data ++ '/' ::
          (st.block_name.getD [] ++ "-acf-raw.txt".data))) := by
  have hacf := create_field_group_parse_failure saved lastMsg hsaved hfail
  have hstep := generate_acf_json_parse_failure st saved lastMsg hphp hsaved hfail
  refine ⟨⟨_, hacf, ?_, ?_⟩, ?_, ?_, ?_⟩
  · rfl
  · rfl
  · rw [hstep]; rfl
  · rw [hstep]
  · rw [hstep]

/-- C1 witness: a concrete unparseable saved output with a present template
exercises the partial-failure path. -/
theorem C1_witness :
    pyTruthyStr (({ php_template := some "x".data,
                    block_name := some "blk".data } : BlockState)).php_template = true ∧
    ("not json".data : PyStr) ≠ [] ∧
    jsonLoads (cleanSavedOutput "not json".data) = none ∧
    committedAcf (generate_acf_json (some "not json".data) []
      { php_template := some "x".data, block_name := some "blk".data }) = none :=
  ⟨rfl, by decide, rfl,
    (C1_parse_failure_keeps_session_active
      { php_template := some "x".data, block_name := some "blk".data }
      "not json".data [] rfl (by decide) rfl).2.1⟩

/-- C5 counterexample: with block name "my-cool-block" and unparseable
backend output, the fallback file written is "my-cool-block-acf-raw.txt",
not the "my-cool-block-raw.txt" the claim names. -/
theorem C5_counterexample :
    (generate_acf_json (some "not json".data) []
        { block_name := some "my-cool-block".data,
          php_template := some "x".data }).filesWritten.map Prod.fst =
      ["my-cool-block-acf-raw.txt".data] ∧
    ¬((generate_acf_json (some "not json".data) []
        { block_name := some "my-cool-block".data,
          php_template := some "x".data }).filesWritten.map Prod.fst =
      ["my-cool-block".data ++ "-raw.txt".data]) := by
  constructor
  · rfl
  · intro h
    have h2 : (["my-cool-block-acf-raw.txt".data] : List PyStr) =
        ["my-cool-block".data ++ "-raw.txt".data] := by
      rw [← h]
      rfl
    simp at h2

/-- C5 (amended): for every session whose configuration-generation backend
output fails to parse, the raw-output fallback file written into the
session's output directory is named `<blockName>-acf-raw.txt`, where
blockName is the session's derived block name. -/
theorem C5_fallback_filename (st : BlockState) (saved lastMsg : PyStr)
    (hphp : pyTruthyStr st.php_template = true) (hsaved : saved ≠ [])
    (hfail : jsonLoads (cleanSavedOutput saved) = none) :
    (generate_acf_json (some saved) lastMsg st).filesWritten.map Prod.fst =
      [st.block_name.getD [] ++ "-acf-raw.txt".data] := by
  rw [generate_acf_json_parse_failure st saved lastMsg hphp hsaved hfail]
  rfl

/-- C5 witness: the amended filename law at a concrete session. -/
theorem C5_witness :
    pyTruthyStr (({ block_name := some "my-cool-block".data,
                    php_template := some "x".data } : BlockState)).php_template = true ∧
    ("oops".data : PyStr) ≠ [] ∧
    jsonLoads (cleanSavedOutput "oops".data) = none ∧
    (generate_acf_json (some "oops".data) []
        { block_name := some "my-cool-block".data,
          php_template := some "x".data }).filesWritten.map Prod.fst =
      ["my-cool-block".data ++ "-acf-raw.txt".data] :=
  ⟨rfl, by decide, rfl,
    C5_fallback_filename
      { block_name := some "my-cool-block".data, php_template := some "x".data }
      "oops".data [] rfl (by decide) rfl⟩

/-- C6: when `php_template` is absent or empty, `generate_acf_json` returns
an error message naming the missing PHP template, makes no backend call,
writes no file, and commits no state update — the step result is exactly
the precondition-failure result, so a retry re-attempts the identical
step. -/
theorem C6_missing_template_precondition (st : BlockState)
    (saved : Option PyStr) (lastMsg : PyStr)
    (h : pyTruthyStr st.php_template = false) :
    generate_acf_json saved lastMsg st =
      ⟨false, [], .msg "Error: PHP template must be generated first.".data⟩ := by
  unfold generate_acf_json
  dsimp only
  have hempty : (st.php_template.getD []).isEmpty = true := by
    cases hp : st.php_template with
    | none => rfl
    | some s =>
      rw [hp] at h
      simp [pyTruthyStr] at h
      simpa using h
  rw [hempty]
  rfl

/-- C6 witness: the precondition failure at a concrete state with no
template. -/
theorem C6_witness :
    pyTruthyStr (({ block_name := some "blk".data } : BlockState)).php_template =
      false ∧
    generate_acf_json none [] { block_name := some "blk".data } =
      ⟨false, [], .msg "Error: PHP template must be generated first.".data⟩ :=
  ⟨rfl, C6_missing_template_precondition { block_name := some "blk".data }
    none [] rfl⟩

/-- C7: of the five registered tools, exactly `propose_fields` carries the
interrupt-on-decision policy; every other tool auto-runs, so the workflow
suspends for a human decision only after a `propose_fields` invocation. -/
theorem C7_only_propose_fields_interrupts :
    interrupt_on.map Prod.fst = orchestratorToolNames ∧
    (∀ name : PyStr, stepSuspends name = true ↔ name = "propose_fields".data) := by
  constructor
  · rfl
  · intro name
    by_cases h2 : name = "propose_fields".data
    · subst h2
      exact ⟨fun _ => rfl, fun _ => rfl⟩
    · constructor
      · intro h
        exfalso
        by_cases h1 : name = "update_block_info".data
        · subst h1; exact Bool.noConfusion (show false = true from h)
        by_cases h3 : name = "generate_php_template".data
        · subst h3; exact Bool.noConfusion (show false = true from h)
        by_cases h4 : name = "generate_acf_json".data
        · subst h4; exact Bool.noConfusion (show false = true from h)
        by_cases h5 : name = "summarize_results".data
        · subst h5; exact Bool.noConfusion (show false = true from h)
        unfold stepSuspends interrupt_on at h
        simp only [List.lookup, beq_eq_false_iff_ne.mpr h1,
          beq_eq_false_iff_ne.mpr h2, beq_eq_false_iff_ne.mpr h3,
          beq_eq_false_iff_ne.mpr h4, beq_eq_false_iff_ne.mpr h5] at h
        exact Bool.noConfusion h
      · intro h
        exact absurd h h2

/-- C8: a new-block intent on an incomplete, named session abandons it
exactly when the caller's stripped, lowercased confirmation answer is
"y"; any other answer keeps the session. -/
theorem C8_confirmation_guards_abandonment (st : BlockState) (confirm : PyStr)
    (hname : pyTruthyStr st.block_name = true)
    (hincomp : is_block_complete st = false) :
    abandonsSession st confirm = true ↔ pyLower (pyStrip confirm) = "y".data := by
  unfold abandonsSession
  rw [hincomp, hname]
  simp

/-- C8 witness: on a concrete incomplete named session, answering "n" keeps
the session and answering " Y " abandons it. -/
theorem C8_witness :
    pyTruthyStr (({ block_name := some "blk".data } : BlockState)).block_name =
      true ∧
    is_block_complete { block_name := some "blk".data } = false ∧
    (abandonsSession { block_name := some "blk".data } " Y ".data = true ↔
      pyLower (pyStrip " Y ".data) = "y".data) :=
  ⟨rfl, rfl, C8_confirmation_guards_abandonment
    { block_name := some "blk".data } " Y ".data rfl rfl⟩

/-- C4: `classify_user_intent` returns exactly one of three categories:
"exit" iff the lowercased, stripped input is exactly one of the exit words;
otherwise "new_block" iff the lowercased input contains one of the
new-block phrases as a substring; otherwise "continue".  In particular "q"
maps to exit, an input containing "another block" to new_block, and
"looks good, continue" to continue. -/
theorem C4_classify_user_intent (s : PyStr) :
    (classify_user_intent s = "exit".data ↔ pyStrip (pyLower s) ∈ exitWords) ∧
    (classify_user_intent s = "new_block".data ↔
      (pyStrip (pyLower s) ∉ exitWords ∧
        ∃ p ∈ newBlockPhrases, p <:+: pyLower s)) ∧
    (classify_user_intent s = "continue".data ↔
      (pyStrip (pyLower s) ∉ exitWords ∧
        ¬∃ p ∈ newBlockPhrases, p <:+: pyLower s)) ∧
    classify_user_intent "q".data = "exit".data ∧
    classify_user_intent
      ("let".data ++ ([Char.ofNat 39] ++ "s make another block please".data)) =
      "new_block".data ∧
    classify_user_intent "looks good, continue".data = "continue".data := by
  refine ⟨?_, ?_, ?_, rfl, rfl, rfl⟩
  · unfold classify_user_intent
    dsimp only
    by_cases hex : pyStrip (pyLower s) ∈ exitWords
    · rw [if_pos hex]
      simp [hex]
    · rw [if_neg hex]
      by_cases hany :
          newBlockPhrases.any (fun p => pyStrIn p (pyStrip (pyLower s))) = true
      · rw [if_pos hany]
        exact ⟨fun h => absurd h (by decide), fun h => absurd h hex⟩
      · rw [if_neg hany]
        exact ⟨fun h => absurd h (by decide), fun h => absurd h hex⟩
  · unfold classify_user_intent
    dsimp only
    by_cases hex : pyStrip (pyLower s) ∈ exitWords
    · rw [if_pos hex]
      exact ⟨fun h => absurd h (by decide), fun h => absurd hex h.1⟩
    · rw [if_neg hex]
      by_cases hany :
          newBlockPhrases.any (fun p => pyStrIn p (pyStrip (pyLower s))) = true
      · rw [if_pos hany]
        exact ⟨fun _ => ⟨hex, (newBlock_any_iff s).1 hany⟩, fun _ => rfl⟩
      · rw [if_neg hany]
        exact ⟨fun h => absurd h (by decide),
          fun h => absurd ((newBlock_any_iff s).2 h.2) hany⟩
  · unfold classify_user_intent
    dsimp only
    by_cases hex : pyStrip (pyLower s) ∈ exitWords
    · rw [if_pos hex]
      exact ⟨fun h => absurd h (by decide), fun h => absurd hex h.1⟩
    · rw [if_neg hex]
      by_cases hany :
          newBlockPhrases.any (fun p => pyStrIn p (pyStrip (pyLower s))) = true
      · rw [if_pos hany]
        exact ⟨fun h => absurd h (by decide),
          fun h => absurd ((newBlock_any_iff s).1 hany) h.2⟩
      · rw [if_neg hany]
        exact ⟨fun _ => ⟨hex, fun hexist =>
          absurd ((newBlock_any_iff s).2 hexist) hany⟩, fun _ => rfl⟩
